import Mathlib

/-!
Verification of the TheScheduler backend core: a shallow embedding of
`backend/app/time_utils.py` and `backend/app/conflicts.py` (time/day
normalization and conflict detection), together with theorems settling the
specification claims.

Modeling conventions:
* Python strings are modeled as Lean `String` / `List Char`; the character
  classes used by the source (`\s`, `\d`, `str.lower`, `str.strip`,
  `str.isalpha`) are modeled over ASCII, which covers the source's intended
  input alphabet.
* Python functions that raise `ValueError` are modeled as `Option`-returning
  functions (`none` = raise).
* The two regular expressions `LPU_TIME_RE` and `TIME_RANGE_RE` are modeled
  by deterministic matchers proved below to implement the same language.
-/

namespace Scheduler

/-- ASCII whitespace recognized by Python's `\s` and `str.strip`. -/
def isPySpace (c : Char) : Bool :=
  c = ' ' || c = '\t' || c = '\n' || c = '\r' || c = '\x0b' || c = '\x0c'

/-- ASCII lowercasing of a single character, modeling `str.lower`. -/
def lowerChar (c : Char) : Char :=
  if 'A' ≤ c && c ≤ 'Z' then Char.ofNat (c.toNat + 32) else c

/-- ASCII decimal digit test, modeling the regex class `\d`. -/
def isDigitChar (c : Char) : Bool :=
  '0' ≤ c && c ≤ '9'

/-- ASCII letter test, modeling `str.isalpha` character-wise. -/
def isAlphaChar (c : Char) : Bool :=
  ('a' ≤ c && c ≤ 'z') || ('A' ≤ c && c ≤ 'Z')

/-- Python `str.strip` on a character list: remove leading and trailing
whitespace. -/
def pyStrip (l : List Char) : List Char :=
  ((l.dropWhile isPySpace).reverse.dropWhile isPySpace).reverse

/-- Python `str.lower` on a character list (ASCII). -/
def pyLower (l : List Char) : List Char :=
  l.map lowerChar

/-- Clean a string the way `_matches_ignore` and `_is_tba` do:
`value.strip().lower()`. -/
def cleaned (s : String) : String :=
  String.mk (pyLower (pyStrip s.data))

/-- Numeric value of a digit character (used for `int(...)` on digit runs). -/
def digitVal (c : Char) : Nat :=
  c.toNat - 48

/-- Python `int` on a run of decimal digits. -/
def natOfDigits (l : List Char) : Nat :=
  l.foldl (fun a c => a * 10 + digitVal c) 0

/-- Drop leading whitespace: one `\s*` step of the regex matcher. -/
def skipWs (l : List Char) : List Char :=
  l.dropWhile isPySpace

/-- Matcher for the regex fragment `(\d{1,2}):(\d{2})` of `LPU_TIME_RE`:
returns the hour value, the minute value and the rest of the input.  The
regex's greedy `\d{1,2}` followed by the mandatory `:` is equivalent to
requiring that the maximal leading digit run has length 1 or 2 and is
followed by `:`. -/
def matchClock (l : List Char) : Option (Nat × Nat × List Char) :=
  if (l.takeWhile isDigitChar).length = 1 || (l.takeWhile isDigitChar).length = 2 then
    match l.dropWhile isDigitChar with
    | k :: d1 :: d2 :: r =>
      if k = ':' && isDigitChar d1 && isDigitChar d2 then
        some (natOfDigits (l.takeWhile isDigitChar), digitVal d1 * 10 + digitVal d2, r)
      else none
    | _ => none
  else none

/-- Matcher for the regex fragment `\s*([ap])` of `LPU_TIME_RE`
(case-insensitive): returns the captured meridiem character unchanged and
the rest of the input. -/
def matchMeridiem (l : List Char) : Option (Char × List Char) :=
  match skipWs l with
  | c :: r => if lowerChar c = 'a' || lowerChar c = 'p' then some (c, r) else none
  | [] => none

/-- Matcher for `LPU_TIME_RE`, the anchored regex
`^\s*(\d{1,2}):(\d{2})\s*([ap])\s*-\s*(\d{1,2}):(\d{2})\s*([ap])\s*$`
with `re.IGNORECASE`: returns the six captured groups
(start hour, start minute, start meridiem, end hour, end minute,
end meridiem) when the whole input matches. -/
def lpuMatch (l : List Char) : Option (Nat × Nat × Char × Nat × Nat × Char) :=
  match matchClock (skipWs l) with
  | none => none
  | some (h1, m1, r1) =>
    match matchMeridiem r1 with
    | none => none
    | some (c1, r2) =>
      match skipWs r2 with
      | [] => none
      | k :: r3 =>
        if k = '-' then
          match matchClock (skipWs r3) with
          | none => none
          | some (h2, m2, r4) =>
            match matchMeridiem r4 with
            | none => none
            | some (c2, r5) =>
              if (skipWs r5).isEmpty then some (h1, m1, c1, h2, m2, c2) else none
        else none

/-- Embedding of `_to_minutes(hour, minute, meridian)`: 12-hour to
minutes-past-midnight conversion with range validation; `none` models the
raised `ValueError("Invalid time component")`.  The `minute < 0` half of the
source's range check is vacuous over `Nat`. -/
def _to_minutes (hour : Nat) (minute : Nat) (meridian : Char) : Option Nat :=
  if hour < 1 || hour > 12 || minute > 59 then none
  else
    let m := lowerChar meridian
    let h := if m = 'a' then (if hour = 12 then 0 else hour)
             else (if hour = 12 then 12 else hour + 12)
    some (h * 60 + minute)

/-- Digit character of a value in `0..9` (the fallback arm is unreachable on
that domain). -/
def dChar (n : Nat) : Char :=
  match n with
  | 0 => '0' | 1 => '1' | 2 => '2' | 3 => '3' | 4 => '4'
  | 5 => '5' | 6 => '6' | 7 => '7' | 8 => '8' | _ => '9'

/-- Python `f"{n:02d}"` for `n` in `0..99`, the domain on which the source
ever formats (hours `0..23`, minutes `0..59`). -/
def twoDigit (n : Nat) : List Char :=
  [dChar (n / 10), dChar (n % 10)]

/-- Embedding of `format_time_24(minutes)`: render minutes-past-midnight as
`HH:MM`. -/
def format_time_24 (minutes : Nat) : String :=
  String.mk (twoDigit (minutes / 60) ++ ':' :: twoDigit (minutes % 60))

/-- Embedding of `parse_time_lpu(time_lpu)`: match `LPU_TIME_RE`, convert
both sides via `_to_minutes`, reject `start_minutes >= end_minutes`, and
return the recomputed 24-hour string together with the start/end minutes.
`none` models the raised `ValueError("Invalid Time (LPU Std)...")`.  Note
that the source returns a 3-tuple: the original input text is not part of
the return value. -/
def parse_time_lpu (time_lpu : String) : Option (String × Nat × Nat) :=
  match lpuMatch time_lpu.data with
  | none => none
  | some (h1, m1, c1, h2, m2, c2) =>
    match _to_minutes h1 m1 c1, _to_minutes h2 m2 c2 with
    | some start_minutes, some end_minutes =>
      if start_minutes ≥ end_minutes then none
      else some (format_time_24 start_minutes ++ "-" ++ format_time_24 end_minutes,
                 start_minutes, end_minutes)
    | _, _ => none

/-- Matcher for `TIME_RANGE_RE`, the anchored regex
`^(\d{2}):(\d{2})-(\d{2}):(\d{2})$`: the input must be exactly eleven
characters of the given shape. -/
def timeRangeMatch (l : List Char) : Option (Nat × Nat × Nat × Nat) :=
  match l with
  | [a1, a2, k1, b1, b2, dash, c1, c2, k2, d1, d2] =>
    if k1 = ':' && dash = '-' && k2 = ':' &&
       isDigitChar a1 && isDigitChar a2 && isDigitChar b1 && isDigitChar b2 &&
       isDigitChar c1 && isDigitChar c2 && isDigitChar d1 && isDigitChar d2 then
      some (digitVal a1 * 10 + digitVal a2, digitVal b1 * 10 + digitVal b2,
            digitVal c1 * 10 + digitVal c2, digitVal d1 * 10 + digitVal d2)
    else none
  | _ => none

/-- Embedding of `parse_time_range(time_24)`: match `TIME_RANGE_RE` against
the stripped input; reject `start_minutes >= end_minutes`.  `none` models the
raised `ValueError`. -/
def parse_time_range (time_24 : String) : Option (Nat × Nat) :=
  match timeRangeMatch (pyStrip time_24.data) with
  | none => none
  | some (sh, sm, eh, em) =>
    let start_minutes := sh * 60 + sm
    let end_minutes := eh * 60 + em
    if start_minutes ≥ end_minutes then none else some (start_minutes, end_minutes)

/-- Embedding of the `DAY_ALIASES` lookup table: `DAY_ALIASES.get(key)` for a
lowercased key. -/
def day_aliases (key : String) : Option String :=
  match key with
  | "m" => some "M" | "mon" => some "M" | "monday" => some "M"
  | "t" => some "T" | "tu" => some "T" | "tue" => some "T"
  | "tues" => some "T" | "tuesday" => some "T"
  | "w" => some "W" | "wed" => some "W" | "weds" => some "W"
  | "wednesday" => some "W"
  | "th" => some "Th" | "thu" => some "Th" | "thur" => some "Th"
  | "thurs" => some "Th" | "thursday" => some "Th"
  | "f" => some "F" | "fri" => some "F" | "friday" => some "F"
  | "sa" => some "Sa" | "sat" => some "Sa" | "saturday" => some "Sa"
  | "su" => some "Su" | "sun" => some "Su" | "sunday" => some "Su"
  | _ => none

/-- The `CANONICAL_DAYS` set, as an enumeration. -/
def canonical_days : List String := ["M", "T", "W", "Th", "F", "Sa", "Su"]

/-- Single-character fallback of the compact scanner:
`DAY_ALIASES.get(char.lower(), char)` where the default keeps the original
case. -/
def aliasOrSelf (c : Char) : String :=
  match day_aliases (String.mk [lowerChar c]) with
  | some t => t
  | none => String.mk [c]

/-- Embedding of `_parse_compact_days(value)`: greedy left-to-right scan;
a two-character case-insensitive `th`/`sa`/`su` digraph consumes two
characters, otherwise one character is consumed and mapped through the
single-letter aliases (unmapped characters pass through literally). -/
def _parse_compact_days : List Char → List String
  | [] => []
  | [c] => [aliasOrSelf c]
  | c1 :: c2 :: rest =>
    if lowerChar c1 = 't' && lowerChar c2 = 'h' then
      "Th" :: _parse_compact_days rest
    else if lowerChar c1 = 's' && lowerChar c2 = 'a' then
      "Sa" :: _parse_compact_days rest
    else if lowerChar c1 = 's' && lowerChar c2 = 'u' then
      "Su" :: _parse_compact_days rest
    else
      aliasOrSelf c1 :: _parse_compact_days (c2 :: rest)

/-- Python single-character `str.replace`. -/
def pyReplaceChar (l : List Char) (a b : Char) : List Char :=
  l.map (fun c => if c = a then b else c)

/-- Python `str.split(sep)` for a one-character separator (so that
`"".split(",") = [""]` and empty fields are kept). -/
def splitOnChar (sep : Char) : List Char → List (List Char)
  | [] => [[]]
  | c :: t =>
    let r := splitOnChar sep t
    if c = sep then [] :: r
    else
      match r with
      | h :: t2 => (c :: h) :: t2
      | [] => [[c]]

/-- One token of the delimited branch of `normalize_days_string`:
`key = part.strip().lower()`; skip empty keys; otherwise
`DAY_ALIASES.get(key, part.strip())`. -/
def delimToken (part : List Char) : Option String :=
  let stripped := pyStrip part
  let key := String.mk (pyLower stripped)
  if key = "" then none
  else some (match day_aliases key with
             | some t => t
             | none => String.mk stripped)

/-- Python `str.isalpha` (ASCII): nonempty and every character a letter. -/
def pyIsAlpha (l : List Char) : Bool :=
  !l.isEmpty && l.all isAlphaChar

/-- The local `parts` of `normalize_days_string`: split the `/`- and
space-to-comma-rewritten input on commas and drop empty parts. -/
def day_parts (days : String) : List (List Char) :=
  (splitOnChar ',' (pyReplaceChar (pyReplaceChar days.data '/' ',') ' ' ',')).filter
    (fun p => p ≠ [])

/-- The list `tokens` computed inside `normalize_days_string` before the
canonical filter: either the compact scan (single alphabetic part longer
than two characters) or the alias lookup per part.  The `if not days` early
return of the source yields the empty token list here. -/
def day_raw_tokens (days : String) : List String :=
  if days = "" then []
  else
    match day_parts days with
    | [p] =>
      if decide (p.length > 2) && pyIsAlpha p then _parse_compact_days p
      else (([p] : List (List Char)).filterMap delimToken)
    | parts => parts.filterMap delimToken

/-- Comma-joining of token strings, modeling `",".join(...)`. -/
def joinComma : List String → List Char
  | [] => []
  | [s] => s.data
  | s :: rest => s.data ++ ',' :: joinComma rest

/-- Embedding of `normalize_days_string(days)`: tokenize, keep only tokens in
`CANONICAL_DAYS`, and comma-join the result. -/
def normalize_days_string (days : String) : String :=
  String.mk (joinComma ((day_raw_tokens days).filter
    (fun t => canonical_days.contains t)))

/-- The token sequence of the result of `normalize_days_string`: split the
joined string back on commas and drop empty fields. -/
def day_result_tokens (days : String) : List String :=
  ((splitOnChar ',' (normalize_days_string days).data).filter
    (fun p => p ≠ [])).map String.mk

/-- Embedding of `normalize_days(days)`: the Python `set` of the split
tokens, modeled as the deduplicated token list (membership-faithful). -/
def normalize_days (days : String) : List String :=
  (day_result_tokens days).dedup

/-- Embedding of `overlap(start_a, end_a, start_b, end_b)`: half-open
interval overlap. -/
def overlap (start_a end_a start_b end_b : Int) : Bool :=
  decide (start_a < end_b) && decide (start_b < end_a)

/-- A schedule entry as consumed by the conflict detector: the fields of the
`ScheduleEntry` model that `find_conflicts` reads.  `time_lpu`, `days`,
`room` and `faculty` are non-nullable columns; `start_minutes` and
`end_minutes` are nullable. -/
structure ScheduleEntry where
  id : Int
  time_lpu : String
  days : String
  room : String
  faculty : String
  start_minutes : Option Int
  end_minutes : Option Int
deriving DecidableEq, Repr

/-- A conflict record as emitted by `find_conflicts`:
`{"entry_id": ..., "conflicts_with": ..., "conflict_type": ...}`. -/
structure ConflictRecord where
  entry_id : Int
  conflicts_with : Int
  conflict_type : String
deriving DecidableEq, Repr

/-- The keyword configuration of `find_conflicts`. -/
structure Config where
  ignore_faculty : Bool
  ignore_room : Bool
  ignore_tba : Bool
  ignore_faculty_list : List String
  ignore_room_list : List String
  contains_faculty : Bool
  contains_room : Bool
deriving DecidableEq, Repr

/-- The all-defaults configuration (nothing ignored, empty lists). -/
def defaultConfig : Config :=
  ⟨false, false, false, [], [], false, false⟩

/-- Embedding of `_is_tba(value)` on a string value: stripped, lowercased
value is empty or `"tba"`.  (The source also maps a `None` value to `True`;
the fields it is applied to are non-nullable strings.) -/
def _is_tba (value : String) : Bool :=
  cleaned value = "" || cleaned value = "tba"

/-- Leading-match test: the first argument is an initial segment of the
second. -/
def leadsWith : List Char → List Char → Bool
  | [], _ => true
  | _ :: _, [] => false
  | a :: as, b :: bs => a = b && leadsWith as bs

/-- Python substring containment `needle in haystack` (contiguous). -/
def strContains (haystack needle : List Char) : Bool :=
  match haystack with
  | [] => needle.isEmpty
  | c :: t => leadsWith needle (c :: t) || strContains t needle

/-- Embedding of `_matches_ignore(value, ignore_list, contains)`: some
non-blank list item matches the cleaned value, by substring containment in
`contains` mode and by equality otherwise. -/
def _matches_ignore (value : String) (ignore_list : List String) (contains : Bool) : Bool :=
  ignore_list.any (fun item =>
    if cleaned item = "" then false
    else if contains then strContains (cleaned value).data (cleaned item).data
    else cleaned item = cleaned value)

/-- Nonempty set intersection, modeling the truthiness of
`a.intersection(b)` on the token sets. -/
def setIntersects (a b : List String) : Bool :=
  a.any (fun d => b.contains d)

/-- The outer-loop TBA skip of `find_conflicts`:
`ignore_tba and (_is_tba(e.time_lpu) or _is_tba(e.days))`. -/
def entry_skip (cfg : Config) (e : ScheduleEntry) : Bool :=
  cfg.ignore_tba && (_is_tba e.time_lpu || _is_tba e.days)

/-- The room branch of the inner loop of `find_conflicts`: skipped entirely
when rooms are globally ignored or either side matches the room ignore-list;
otherwise a record is appended iff the rooms are exactly equal. -/
def room_records (cfg : Config) (entry other : ScheduleEntry) : List ConflictRecord :=
  if cfg.ignore_room then []
  else if _matches_ignore entry.room cfg.ignore_room_list cfg.contains_room ||
          _matches_ignore other.room cfg.ignore_room_list cfg.contains_room then []
  else if entry.room = other.room then [⟨entry.id, other.id, "room"⟩]
  else []

/-- The faculty branch of the inner loop of `find_conflicts`, mirroring the
room branch with the faculty ignore-list. -/
def faculty_records (cfg : Config) (entry other : ScheduleEntry) : List ConflictRecord :=
  if cfg.ignore_faculty then []
  else if _matches_ignore entry.faculty cfg.ignore_faculty_list cfg.contains_faculty ||
          _matches_ignore other.faculty cfg.ignore_faculty_list cfg.contains_faculty then []
  else if entry.faculty = other.faculty then [⟨entry.id, other.id, "faculty"⟩]
  else []

/-- The body of the inner loop of `find_conflicts` for one ordered pair
`(entry, other)`: the sequence of `continue` guards (identical id, `other`
lacking minutes, `other` TBA-skipped, no time overlap, no shared day)
followed by the room and faculty record appends.  `entry`'s minutes are
re-matched here; the source guarantees them non-null via the outer-loop
guard, so the wildcard arm is unreachable from `find_conflicts`. -/
def inner_records (cfg : Config) (entry : ScheduleEntry) (entry_days : List String)
    (other : ScheduleEntry) : List ConflictRecord :=
  if entry.id = other.id then []
  else
    match other.start_minutes, other.end_minutes with
    | some o_start, some o_end =>
      if entry_skip cfg other then []
      else
        match entry.start_minutes, entry.end_minutes with
        | some e_start, some e_end =>
          if overlap e_start e_end o_start o_end = false then []
          else if setIntersects entry_days (normalize_days other.days) = false then []
          else room_records cfg entry other ++ faculty_records cfg entry other
        | _, _ => []
    | _, _ => []

/-- Embedding of `find_conflicts(db, ...)` over an in-memory snapshot of the
schedule entries: the nested all-ordered-pairs loop, with the outer-loop
guards (`entry` lacking minutes, `entry` TBA-skipped) and the per-entry
`entry_days = normalize_days(entry.days)`. -/
def find_conflicts (entries : List ScheduleEntry) (cfg : Config) : List ConflictRecord :=
  entries.flatMap (fun entry =>
    match entry.start_minutes, entry.end_minutes with
    | some _, some _ =>
      if entry_skip cfg entry then []
      else entries.flatMap (inner_records cfg entry (normalize_days entry.days))
    | _, _ => [])

/-- Bundled overlap test over the optional minute fields: true iff both
entries carry resolved minutes and the minute ranges overlap. -/
def pairOverlap (e o : ScheduleEntry) : Bool :=
  match e.start_minutes, e.end_minutes, o.start_minutes, o.end_minutes with
  | some es, some ee, some os, some oe => overlap es ee os oe
  | _, _, _, _ => false

lemma overlap_comm (a b c d : Int) : overlap a b c d = overlap c d a b := by
  simp [overlap, Bool.and_comm]

lemma pairOverlap_comm (e o : ScheduleEntry) : pairOverlap e o = pairOverlap o e := by
  unfold pairOverlap
  cases e.start_minutes <;> cases e.end_minutes <;> cases o.start_minutes <;>
    cases o.end_minutes <;> simp [overlap_comm]

lemma pairOverlap_eq_true_iff (e o : ScheduleEntry) :
    pairOverlap e o = true ↔
      ∃ es ee os oe : Int,
        e.start_minutes = some es ∧ e.end_minutes = some ee ∧
        o.start_minutes = some os ∧ o.end_minutes = some oe ∧
        overlap es ee os oe = true := by
  unfold pairOverlap
  cases e.start_minutes <;> cases e.end_minutes <;> cases o.start_minutes <;>
    cases o.end_minutes <;> simp

lemma setIntersects_true_iff (a b : List String) :
    setIntersects a b = true ↔ ∃ x, x ∈ a ∧ x ∈ b := by
  simp [setIntersects, List.any_eq_true, List.contains, List.elem_iff]

lemma setIntersects_comm (a b : List String) :
    setIntersects a b = setIntersects b a := by
  have h : (setIntersects a b = true) ↔ (setIntersects b a = true) := by
    rw [setIntersects_true_iff, setIntersects_true_iff]
    constructor
    · rintro ⟨x, h1, h2⟩; exact ⟨x, h2, h1⟩
    · rintro ⟨x, h1, h2⟩; exact ⟨x, h2, h1⟩
  cases hab : setIntersects a b <;> cases hba : setIntersects b a <;> simp_all

lemma mem_room_records {cfg : Config} {e o : ScheduleEntry} {r : ConflictRecord} :
    r ∈ room_records cfg e o ↔
      cfg.ignore_room = false ∧
      _matches_ignore e.room cfg.ignore_room_list cfg.contains_room = false ∧
      _matches_ignore o.room cfg.ignore_room_list cfg.contains_room = false ∧
      e.room = o.room ∧ r = ⟨e.id, o.id, "room"⟩ := by
  unfold room_records
  split_ifs with h1 h2 h3 <;> simp_all
  intro hf1 hf2 _ _
  rcases h2 with h | h <;> simp_all

lemma mem_faculty_records {cfg : Config} {e o : ScheduleEntry} {r : ConflictRecord} :
    r ∈ faculty_records cfg e o ↔
      cfg.ignore_faculty = false ∧
      _matches_ignore e.faculty cfg.ignore_faculty_list cfg.contains_faculty = false ∧
      _matches_ignore o.faculty cfg.ignore_faculty_list cfg.contains_faculty = false ∧
      e.faculty = o.faculty ∧ r = ⟨e.id, o.id, "faculty"⟩ := by
  unfold faculty_records
  split_ifs with h1 h2 h3 <;> simp_all
  intro hf1 hf2 _ _
  rcases h2 with h | h <;> simp_all

lemma mem_inner_records {cfg : Config} {e : ScheduleEntry} {de : List String}
    {o : ScheduleEntry} {r : ConflictRecord} :
    r ∈ inner_records cfg e de o ↔
      e.id ≠ o.id ∧ entry_skip cfg o = false ∧ pairOverlap e o = true ∧
      setIntersects de (normalize_days o.days) = true ∧
      (r ∈ room_records cfg e o ∨ r ∈ faculty_records cfg e o) := by
  unfold inner_records pairOverlap
  by_cases hid : e.id = o.id
  · simp [hid]
  · simp only [if_neg hid]
    cases hos : o.start_minutes <;> cases hoe : o.end_minutes <;>
      cases hes : e.start_minutes <;> cases hee : e.end_minutes <;>
      split_ifs <;> simp_all [List.mem_append]

lemma mem_find_conflicts {entries : List ScheduleEntry} {cfg : Config}
    {r : ConflictRecord} :
    r ∈ find_conflicts entries cfg ↔
      ∃ e, e ∈ entries ∧ entry_skip cfg e = false ∧
        ∃ o, o ∈ entries ∧ r ∈ inner_records cfg e (normalize_days e.days) o := by
  unfold find_conflicts
  rw [List.mem_flatMap]
  constructor
  · rintro ⟨e, he, hr⟩
    rcases hes : e.start_minutes with _ | es <;> rw [hes] at hr
    · simp at hr
    rcases hee : e.end_minutes with _ | ee <;> rw [hee] at hr
    · simp at hr
    by_cases hskip : entry_skip cfg e
    · rw [if_pos hskip] at hr; simp at hr
    · rw [if_neg hskip] at hr
      rw [List.mem_flatMap] at hr
      obtain ⟨o, ho, hro⟩ := hr
      exact ⟨e, he, by simpa using hskip, o, ho, hro⟩
  · rintro ⟨e, he, hskip, o, ho, hro⟩
    refine ⟨e, he, ?_⟩
    have hov := (mem_inner_records.1 hro).2.2.1
    obtain ⟨es, ee, os, oe, hes, hee, _, _, _⟩ := (pairOverlap_eq_true_iff e o).1 hov
    rw [hes, hee, if_neg (by simp [hskip])]
    rw [List.mem_flatMap]
    exact ⟨o, ho, hro⟩

lemma mem_find_conflicts_iff {entries : List ScheduleEntry} {cfg : Config}
    {r : ConflictRecord} :
    r ∈ find_conflicts entries cfg ↔
      ∃ e o, e ∈ entries ∧ o ∈ entries ∧
        entry_skip cfg e = false ∧ entry_skip cfg o = false ∧
        e.id ≠ o.id ∧ pairOverlap e o = true ∧
        setIntersects (normalize_days e.days) (normalize_days o.days) = true ∧
        (r ∈ room_records cfg e o ∨ r ∈ faculty_records cfg e o) := by
  rw [mem_find_conflicts]
  constructor
  · rintro ⟨e, he, hskip, o, ho, hr⟩
    rw [mem_inner_records] at hr
    exact ⟨e, o, he, ho, hskip, hr.2.1, hr.1, hr.2.2.1, hr.2.2.2.1, hr.2.2.2.2⟩
  · rintro ⟨e, o, he, ho, hse, hso, hid, hov, hint, hmem⟩
    exact ⟨e, he, hse, o, ho, mem_inner_records.2 ⟨hid, hso, hov, hint, hmem⟩⟩

lemma find_conflicts_swap {entries : List ScheduleEntry} {cfg : Config}
    {A B : Int} {t : String}
    (h : (⟨A, B, t⟩ : ConflictRecord) ∈ find_conflicts entries cfg) :
    (⟨B, A, t⟩ : ConflictRecord) ∈ find_conflicts entries cfg := by
  rw [mem_find_conflicts_iff] at h ⊢
  obtain ⟨e, o, he, ho, hse, hso, hid, hov, hint, hmem⟩ := h
  refine ⟨o, e, ho, he, hso, hse, fun hh => hid hh.symm, ?_, ?_, ?_⟩
  · rw [pairOverlap_comm]; exact hov
  · rw [setIntersects_comm]; exact hint
  · rcases hmem with hm | hm
    · left
      rw [mem_room_records] at hm ⊢
      obtain ⟨h1, h2, h3, h4, h5⟩ := hm
      simp only [ConflictRecord.mk.injEq] at h5
      exact ⟨h1, h3, h2, h4.symm, by simp [h5.1, h5.2.1, h5.2.2]⟩
    · right
      rw [mem_faculty_records] at hm ⊢
      obtain ⟨h1, h2, h3, h4, h5⟩ := hm
      simp only [ConflictRecord.mk.injEq] at h5
      exact ⟨h1, h3, h2, h4.symm, by simp [h5.1, h5.2.1, h5.2.2]⟩

lemma double_conflict_inner {a b : ScheduleEntry} {as ae bs be : Int}
    (hid : a.id ≠ b.id)
    (has : a.start_minutes = some as) (hae : a.end_minutes = some ae)
    (hbs : b.start_minutes = some bs) (hbe : b.end_minutes = some be)
    (hov : overlap as ae bs be = true)
    (hint : setIntersects (normalize_days a.days) (normalize_days b.days) = true)
    (hroom : a.room = b.room) (hfac : a.faculty = b.faculty) :
    inner_records defaultConfig a (normalize_days a.days) b =
      [⟨a.id, b.id, "room"⟩, ⟨a.id, b.id, "faculty"⟩] := by
  unfold inner_records room_records faculty_records
  rw [has, hae, hbs, hbe]
  simp [hid, entry_skip, defaultConfig, _matches_ignore, hov, hint, hroom, hfac]

lemma inner_records_self (cfg : Config) (e : ScheduleEntry) (de : List String) :
    inner_records cfg e de e = [] := by
  unfold inner_records
  simp

/-- C2: for every snapshot of entries and every configuration,
`find_conflicts` emits a record `{entry_id := A, conflicts_with := B,
conflict_type := t}` iff it also emits `{entry_id := B, conflicts_with := A,
conflict_type := t}`; and two entries with distinct ids that share a day,
have overlapping time windows, identical rooms and identical faculty yield,
under the default configuration, exactly four records: room and faculty,
each in both directions. -/
theorem c2_symmetry_and_double_conflict :
    (∀ (entries : List ScheduleEntry) (cfg : Config) (A B : Int) (t : String),
      (⟨A, B, t⟩ : ConflictRecord) ∈ find_conflicts entries cfg ↔
      (⟨B, A, t⟩ : ConflictRecord) ∈ find_conflicts entries cfg) ∧
    (∀ (a b : ScheduleEntry) (as ae bs be : Int),
      a.id ≠ b.id →
      a.start_minutes = some as → a.end_minutes = some ae →
      b.start_minutes = some bs → b.end_minutes = some be →
      overlap as ae bs be = true →
      setIntersects (normalize_days a.days) (normalize_days b.days) = true →
      a.room = b.room → a.faculty = b.faculty →
      find_conflicts [a, b] defaultConfig =
        [⟨a.id, b.id, "room"⟩, ⟨a.id, b.id, "faculty"⟩,
         ⟨b.id, a.id, "room"⟩, ⟨b.id, a.id, "faculty"⟩]) := by
  constructor
  · intro entries cfg A B t
    exact ⟨find_conflicts_swap, find_conflicts_swap⟩
  · intro a b as ae bs be hid has hae hbs hbe hov hint hroom hfac
    have hab := double_conflict_inner hid has hae hbs hbe hov hint hroom hfac
    have hov' : overlap bs be as ae = true := by rw [overlap_comm]; exact hov
    have hint' : setIntersects (normalize_days b.days) (normalize_days a.days) = true := by
      rw [setIntersects_comm]; exact hint
    have hba := double_conflict_inner (fun hh => hid hh.symm) hbs hbe has hae hov'
      hint' hroom.symm hfac.symm
    unfold find_conflicts
    simp only [List.flatMap_cons, List.flatMap_nil, List.append_nil]
    rw [has, hae, hbs, hbe]
    have hskip : ∀ e : ScheduleEntry, entry_skip defaultConfig e = false := fun _ => rfl
    simp only [hskip, Bool.false_eq_true, if_false, List.flatMap_cons, List.flatMap_nil,
      List.append_nil, inner_records_self, hab, hba, List.nil_append, List.cons_append]

/-- C2 witness: the symmetry and the four-record count at a concrete
two-entry snapshot. -/
theorem c2_witness :
    ((⟨1, 2, "room"⟩ : ConflictRecord) ∈
        find_conflicts
          [⟨1, "7:00a-8:00a", "M", "R101", "Dr. Ada", some 420, some 480⟩,
           ⟨2, "7:30a-8:30a", "M", "R101", "Dr. Ada", some 450, some 510⟩]
          defaultConfig ↔
      (⟨2, 1, "room"⟩ : ConflictRecord) ∈
        find_conflicts
          [⟨1, "7:00a-8:00a", "M", "R101", "Dr. Ada", some 420, some 480⟩,
           ⟨2, "7:30a-8:30a", "M", "R101", "Dr. Ada", some 450, some 510⟩]
          defaultConfig) ∧
    find_conflicts
        [⟨1, "7:00a-8:00a", "M", "R101", "Dr. Ada", some 420, some 480⟩,
         ⟨2, "7:30a-8:30a", "M", "R101", "Dr. Ada", some 450, some 510⟩]
        defaultConfig =
      [⟨1, 2, "room"⟩, ⟨1, 2, "faculty"⟩, ⟨2, 1, "room"⟩, ⟨2, 1, "faculty"⟩] :=
  ⟨c2_symmetry_and_double_conflict.1 _ _ 1 2 "room",
   c2_symmetry_and_double_conflict.2
     ⟨1, "7:00a-8:00a", "M", "R101", "Dr. Ada", some 420, some 480⟩
     ⟨2, "7:30a-8:30a", "M", "R101", "Dr. Ada", some 450, some 510⟩
     420 480 450 510 (by decide) rfl rfl rfl rfl (by decide) (by decide) rfl rfl⟩

/-- C3 counterexample: with `ignore_tba = false` (the default
configuration), an entry whose day field is the TBA marker `"TBA"` but whose
minutes are resolved does appear as a side of a conflict record, because
`normalize_days "TBA"` recognizes the leading `T` as Tuesday.  This refutes
the claim that such an entry never appears under every configuration. -/
theorem c3_counterexample :
    _is_tba (⟨1, "7:00a-8:00a", "TBA", "R101", "F1", some 0, some 60⟩ : ScheduleEntry).days
        = true ∧
    defaultConfig.ignore_tba = false ∧
    (⟨1, 2, "room"⟩ : ConflictRecord) ∈
      find_conflicts
        [⟨1, "7:00a-8:00a", "TBA", "R101", "F1", some 0, some 60⟩,
         ⟨2, "7:00a-8:00a", "T", "R101", "F2", some 0, some 60⟩]
        defaultConfig :=
  ⟨by decide, rfl, by decide⟩

/-- C3 (amended): both sides of every emitted conflict record are witnessed
by entries with resolved start/end minutes (so an entry with unresolved
minutes never appears, under every configuration); and when `ignore_tba` is
set, those witnessing entries additionally have non-TBA-equivalent raw time
and day fields (which excludes `days = "TBA"` entries).  With
`ignore_tba = false`, TBA-marked entries with resolved minutes are not
excluded. -/
theorem c3_amended {entries : List ScheduleEntry} {cfg : Config} {r : ConflictRecord}
    (hr : r ∈ find_conflicts entries cfg) :
    (∃ e, e ∈ entries ∧ e.id = r.entry_id ∧
      e.start_minutes ≠ none ∧ e.end_minutes ≠ none ∧
      (cfg.ignore_tba = true → _is_tba e.time_lpu = false ∧ _is_tba e.days = false)) ∧
    (∃ o, o ∈ entries ∧ o.id = r.conflicts_with ∧
      o.start_minutes ≠ none ∧ o.end_minutes ≠ none ∧
      (cfg.ignore_tba = true → _is_tba o.time_lpu = false ∧ _is_tba o.days = false)) := by
  rw [mem_find_conflicts_iff] at hr
  obtain ⟨e, o, he, ho, hse, hso, hid, hov, hint, hmem⟩ := hr
  obtain ⟨es, ee, os, oe, hes, hee, hos, hoe, _⟩ := (pairOverlap_eq_true_iff e o).1 hov
  have hids : e.id = r.entry_id ∧ o.id = r.conflicts_with := by
    rcases hmem with hm | hm
    · obtain ⟨_, _, _, _, h5⟩ := mem_room_records.1 hm
      rw [h5]; exact ⟨rfl, rfl⟩
    · obtain ⟨_, _, _, _, h5⟩ := mem_faculty_records.1 hm
      rw [h5]; exact ⟨rfl, rfl⟩
  have htba : ∀ x : ScheduleEntry, entry_skip cfg x = false → cfg.ignore_tba = true →
      _is_tba x.time_lpu = false ∧ _is_tba x.days = false := by
    intro x hx ht
    unfold entry_skip at hx
    rw [ht] at hx
    simpa using hx
  exact ⟨⟨e, he, hids.1, by rw [hes]; simp, by rw [hee]; simp, htba e hse⟩,
         ⟨o, ho, hids.2, by rw [hos]; simp, by rw [hoe]; simp, htba o hso⟩⟩

/-- C3 witness: the amended statement instantiated at a concrete snapshot
with `ignore_tba` set. -/
theorem c3_amended_witness :
    (∃ e, e ∈ [(⟨1, "7:00a-8:00a", "M", "R101", "F1", some 0, some 60⟩ : ScheduleEntry),
               ⟨2, "7:00a-8:00a", "M", "R101", "F2", some 0, some 60⟩] ∧
      e.id = (⟨1, 2, "room"⟩ : ConflictRecord).entry_id ∧
      e.start_minutes ≠ none ∧ e.end_minutes ≠ none ∧
      ((⟨false, false, true, [], [], false, false⟩ : Config).ignore_tba = true →
        _is_tba e.time_lpu = false ∧ _is_tba e.days = false)) ∧
    (∃ o, o ∈ [(⟨1, "7:00a-8:00a", "M", "R101", "F1", some 0, some 60⟩ : ScheduleEntry),
               ⟨2, "7:00a-8:00a", "M", "R101", "F2", some 0, some 60⟩] ∧
      o.id = (⟨1, 2, "room"⟩ : ConflictRecord).conflicts_with ∧
      o.start_minutes ≠ none ∧ o.end_minutes ≠ none ∧
      ((⟨false, false, true, [], [], false, false⟩ : Config).ignore_tba = true →
        _is_tba o.time_lpu = false ∧ _is_tba o.days = false)) :=
  c3_amended (by decide)

/-- C8: every record emitted by `find_conflicts` comes from an ordered pair
of entries with resolved minutes whose half-open minute ranges overlap and
whose canonical day sets intersect; and the half-open overlap predicate
satisfies the three stated evaluations (touching endpoints do not count). -/
theorem c8_overlap_and_day_gating :
    (∀ (entries : List ScheduleEntry) (cfg : Config) (r : ConflictRecord),
      r ∈ find_conflicts entries cfg →
      ∃ e o, e ∈ entries ∧ o ∈ entries ∧
        e.id = r.entry_id ∧ o.id = r.conflicts_with ∧
        ∃ es ee os oe : Int,
          e.start_minutes = some es ∧ e.end_minutes = some ee ∧
          o.start_minutes = some os ∧ o.end_minutes = some oe ∧
          overlap es ee os oe = true ∧
          setIntersects (normalize_days e.days) (normalize_days o.days) = true) ∧
    overlap 60 120 110 180 = true ∧
    overlap 60 120 120 180 = false ∧
    overlap 60 120 0 59 = false := by
  refine ⟨?_, by decide, by decide, by decide⟩
  intro entries cfg r hr
  rw [mem_find_conflicts_iff] at hr
  obtain ⟨e, o, he, ho, _, _, _, hov, hint, hmem⟩ := hr
  obtain ⟨es, ee, os, oe, hes, hee, hos, hoe, hovv⟩ := (pairOverlap_eq_true_iff e o).1 hov
  have hids : e.id = r.entry_id ∧ o.id = r.conflicts_with := by
    rcases hmem with hm | hm
    · obtain ⟨_, _, _, _, h5⟩ := mem_room_records.1 hm
      rw [h5]; exact ⟨rfl, rfl⟩
    · obtain ⟨_, _, _, _, h5⟩ := mem_faculty_records.1 hm
      rw [h5]; exact ⟨rfl, rfl⟩
  exact ⟨e, o, he, ho, hids.1, hids.2, es, ee, os, oe, hes, hee, hos, hoe, hovv, hint⟩

/-- C8 witness: the gating statement instantiated at a concrete emitted
record. -/
theorem c8_witness :
    ∃ e o, e ∈ [(⟨1, "1:00a-2:00a", "M", "R1", "X", some 60, some 120⟩ : ScheduleEntry),
                ⟨2, "1:50a-3:00a", "M", "R1", "Y", some 110, some 180⟩] ∧
      o ∈ [(⟨1, "1:00a-2:00a", "M", "R1", "X", some 60, some 120⟩ : ScheduleEntry),
           ⟨2, "1:50a-3:00a", "M", "R1", "Y", some 110, some 180⟩] ∧
      e.id = (⟨1, 2, "room"⟩ : ConflictRecord).entry_id ∧
      o.id = (⟨1, 2, "room"⟩ : ConflictRecord).conflicts_with ∧
      ∃ es ee os oe : Int,
        e.start_minutes = some es ∧ e.end_minutes = some ee ∧
        o.start_minutes = some os ∧ o.end_minutes = some oe ∧
        overlap es ee os oe = true ∧
        setIntersects (normalize_days e.days) (normalize_days o.days) = true :=
  c8_overlap_and_day_gating.1 _ defaultConfig _ (by decide)

lemma matches_ignore_iff (value : String) (l : List String) (c : Bool) :
    _matches_ignore value l c = true ↔
      ∃ item, item ∈ l ∧ cleaned item ≠ "" ∧
        ((c = true ∧ strContains (cleaned value).data (cleaned item).data = true) ∨
         (c = false ∧ cleaned item = cleaned value)) := by
  unfold _matches_ignore
  rw [List.any_eq_true]
  constructor
  · rintro ⟨item, hi, hp⟩
    by_cases hb : cleaned item = ""
    · rw [if_pos hb] at hp; cases hp
    · rw [if_neg hb] at hp
      refine ⟨item, hi, hb, ?_⟩
      cases c
      · right
        rw [if_neg (by simp)] at hp
        exact ⟨rfl, by simpa using hp⟩
      · left
        rw [if_pos rfl] at hp
        exact ⟨rfl, hp⟩
  · rintro ⟨item, hi, hb, hcase⟩
    refine ⟨item, hi, ?_⟩
    rw [if_neg hb]
    rcases hcase with ⟨hc, hs⟩ | ⟨hc, hs⟩
    · subst hc; rw [if_pos rfl]; exact hs
    · subst hc; rw [if_neg (by simp)]; simpa using hs

/-- C7: the ignore-list match is exactly a non-blank-item, case-insensitive
match (by substring containment of a list item in the stripped, lowercased
value in substring mode, by equality otherwise); and when rooms are not
globally ignored, an ordered pair that passed the pair gates produces a room
record iff neither side matches the room ignore-list and the two room values
are exactly equal (case-sensitively) — symmetrically for faculty. -/
theorem c7_ignore_list_semantics :
    (∀ (value : String) (l : List String) (c : Bool),
      _matches_ignore value l c = true ↔
        ∃ item, item ∈ l ∧ cleaned item ≠ "" ∧
          ((c = true ∧ strContains (cleaned value).data (cleaned item).data = true) ∨
           (c = false ∧ cleaned item = cleaned value))) ∧
    (∀ (cfg : Config) (e : ScheduleEntry) (de : List String) (o : ScheduleEntry),
      cfg.ignore_room = false →
      ((⟨e.id, o.id, "room"⟩ : ConflictRecord) ∈ inner_records cfg e de o ↔
        (e.id ≠ o.id ∧ entry_skip cfg o = false ∧ pairOverlap e o = true ∧
         setIntersects de (normalize_days o.days) = true) ∧
        _matches_ignore e.room cfg.ignore_room_list cfg.contains_room = false ∧
        _matches_ignore o.room cfg.ignore_room_list cfg.contains_room = false ∧
        e.room = o.room)) ∧
    (∀ (cfg : Config) (e : ScheduleEntry) (de : List String) (o : ScheduleEntry),
      cfg.ignore_faculty = false →
      ((⟨e.id, o.id, "faculty"⟩ : ConflictRecord) ∈ inner_records cfg e de o ↔
        (e.id ≠ o.id ∧ entry_skip cfg o = false ∧ pairOverlap e o = true ∧
         setIntersects de (normalize_days o.days) = true) ∧
        _matches_ignore e.faculty cfg.ignore_faculty_list cfg.contains_faculty = false ∧
        _matches_ignore o.faculty cfg.ignore_faculty_list cfg.contains_faculty = false ∧
        e.faculty = o.faculty)) := by
  refine ⟨matches_ignore_iff, ?_, ?_⟩
  · intro cfg e de o hcfg
    rw [mem_inner_records]
    constructor
    · rintro ⟨hid, hso, hov, hint, hm | hm⟩
      · obtain ⟨_, h2, h3, h4, _⟩ := mem_room_records.1 hm
        exact ⟨⟨hid, hso, hov, hint⟩, h2, h3, h4⟩
      · obtain ⟨_, _, _, _, h5⟩ := mem_faculty_records.1 hm
        simp [ConflictRecord.mk.injEq] at h5
    · rintro ⟨⟨hid, hso, hov, hint⟩, h2, h3, h4⟩
      exact ⟨hid, hso, hov, hint,
        Or.inl (mem_room_records.2 ⟨hcfg, h2, h3, h4, rfl⟩)⟩
  · intro cfg e de o hcfg
    rw [mem_inner_records]
    constructor
    · rintro ⟨hid, hso, hov, hint, hm | hm⟩
      · obtain ⟨_, _, _, _, h5⟩ := mem_room_records.1 hm
        simp [ConflictRecord.mk.injEq] at h5
      · obtain ⟨_, h2, h3, h4, _⟩ := mem_faculty_records.1 hm
        exact ⟨⟨hid, hso, hov, hint⟩, h2, h3, h4⟩
    · rintro ⟨⟨hid, hso, hov, hint⟩, h2, h3, h4⟩
      exact ⟨hid, hso, hov, hint,
        Or.inr (mem_faculty_records.2 ⟨hcfg, h2, h3, h4, rfl⟩)⟩

/-- C7 witness: the room-branch characterization and the match
characterization at concrete values. -/
theorem c7_witness :
    (_matches_ignore "Room 101" ["  ROOM 101 "] false = true ↔
      ∃ item, item ∈ ["  ROOM 101 "] ∧ cleaned item ≠ "" ∧
        ((false = true ∧
          strContains (cleaned "Room 101").data (cleaned item).data = true) ∨
         (false = false ∧ cleaned item = cleaned "Room 101"))) ∧
    ((⟨1, 2, "room"⟩ : ConflictRecord) ∈
        inner_records defaultConfig
          ⟨1, "1:00a-2:00a", "M", "R1", "X", some 60, some 120⟩ ["M"]
          ⟨2, "1:00a-2:00a", "M", "R1", "Y", some 60, some 120⟩ ↔
      (((⟨1, "1:00a-2:00a", "M", "R1", "X", some 60, some 120⟩ : ScheduleEntry).id ≠
          (⟨2, "1:00a-2:00a", "M", "R1", "Y", some 60, some 120⟩ : ScheduleEntry).id ∧
        entry_skip defaultConfig ⟨2, "1:00a-2:00a", "M", "R1", "Y", some 60, some 120⟩ = false ∧
        pairOverlap ⟨1, "1:00a-2:00a", "M", "R1", "X", some 60, some 120⟩
          ⟨2, "1:00a-2:00a", "M", "R1", "Y", some 60, some 120⟩ = true ∧
        setIntersects ["M"]
          (normalize_days (⟨2, "1:00a-2:00a", "M", "R1", "Y", some 60, some 120⟩ :
            ScheduleEntry).days) = true) ∧
       _matches_ignore (⟨1, "1:00a-2:00a", "M", "R1", "X", some 60, some 120⟩ :
           ScheduleEntry).room defaultConfig.ignore_room_list defaultConfig.contains_room
         = false ∧
       _matches_ignore (⟨2, "1:00a-2:00a", "M", "R1", "Y", some 60, some 120⟩ :
           ScheduleEntry).room defaultConfig.ignore_room_list defaultConfig.contains_room
         = false ∧
       (⟨1, "1:00a-2:00a", "M", "R1", "X", some 60, some 120⟩ : ScheduleEntry).room =
         (⟨2, "1:00a-2:00a", "M", "R1", "Y", some 60, some 120⟩ : ScheduleEntry).room)) :=
  ⟨c7_ignore_list_semantics.1 "Room 101" ["  ROOM 101 "] false,
   c7_ignore_list_semantics.2.1 defaultConfig _ ["M"] _ rfl⟩

lemma matches_ignore_append_blanks (value : String) (blanks l : List String)
    (c : Bool) (hb : ∀ b ∈ blanks, cleaned b = "") :
    _matches_ignore value (blanks ++ l) c = _matches_ignore value l c := by
  unfold _matches_ignore
  rw [List.any_append]
  have hz : blanks.any (fun item =>
      if cleaned item = "" then false
      else if c then strContains (cleaned value).data (cleaned item).data
      else cleaned item = cleaned value) = false := by
    rw [List.any_eq_false]
    intro b hbm
    rw [if_pos (hb b hbm)]
    simp
  rw [hz, Bool.false_or]

/-- C10: blank (empty or whitespace-only) ignore-list items never suppress a
conflict: `_matches_ignore` can only succeed through a non-blank item, and
prepending blank items to either ignore list leaves the output of
`find_conflicts` unchanged (so an empty field from splitting a
comma-separated parameter does not match every value in substring mode). -/
theorem c10_blank_ignore_items_inert :
    (∀ (value : String) (l : List String) (c : Bool),
      _matches_ignore value l c = true →
        ∃ item, item ∈ l ∧ cleaned item ≠ "") ∧
    (∀ (entries : List ScheduleEntry)
       (f r t cf cr : Bool) (fl rl blanksF blanksR : List String),
      (∀ b ∈ blanksF, cleaned b = "") →
      (∀ b ∈ blanksR, cleaned b = "") →
      find_conflicts entries ⟨f, r, t, blanksF ++ fl, blanksR ++ rl, cf, cr⟩ =
        find_conflicts entries ⟨f, r, t, fl, rl, cf, cr⟩) := by
  constructor
  · intro value l c h
    obtain ⟨item, hi, hb, _⟩ := (matches_ignore_iff value l c).1 h
    exact ⟨item, hi, hb⟩
  · intro entries f r t cf cr fl rl blanksF blanksR hbf hbr
    have h1 : ∀ v c, _matches_ignore v (blanksF ++ fl) c = _matches_ignore v fl c :=
      fun v c => matches_ignore_append_blanks v blanksF fl c hbf
    have h2 : ∀ v c, _matches_ignore v (blanksR ++ rl) c = _matches_ignore v rl c :=
      fun v c => matches_ignore_append_blanks v blanksR rl c hbr
    unfold find_conflicts inner_records room_records faculty_records entry_skip
    simp only [h1, h2]

/-- C10 witness: a blank item in substring mode matches nothing, and adding
blank items to the lists leaves a concrete conflict report unchanged. -/
theorem c10_witness :
    (_matches_ignore "R101" [""] true = true →
      ∃ item, item ∈ [("" : String)] ∧ cleaned item ≠ "") ∧
    find_conflicts
        [⟨1, "1:00a-2:00a", "M", "R1", "X", some 60, some 120⟩,
         ⟨2, "1:00a-2:00a", "M", "R1", "X", some 60, some 120⟩]
        ⟨false, false, false, [""] ++ [], ["", "  "] ++ [], true, true⟩ =
      find_conflicts
        [⟨1, "1:00a-2:00a", "M", "R1", "X", some 60, some 120⟩,
         ⟨2, "1:00a-2:00a", "M", "R1", "X", some 60, some 120⟩]
        ⟨false, false, false, [], [], true, true⟩ :=
  ⟨c10_blank_ignore_items_inert.1 "R101" [""] true,
   c10_blank_ignore_items_inert.2 _ false false false true true [] [] [""] ["", "  "]
     (by decide) (by decide)⟩

/-- C1 (evaluation at the failing input): `parse_time_lpu` returns a
3-tuple whose first component is the recomputed 24-hour string, not the
original input text — there is no canonical-display component in the return
value, although the derived minute pairs are as claimed.  The module's own
tests and callers unpack a 4-tuple `(display, time_24, start, end)` with the
original text first, which this return shape cannot satisfy. -/
theorem c1_parse_time_lpu_return_shape :
    parse_time_lpu "10:00a-12:00p" = some ("10:00-12:00", 600, 720) ∧
    parse_time_lpu "12:00a-1:00a" = some ("00:00-01:00", 0, 60) ∧
    ("10:00-12:00" : String) ≠ "10:00a-12:00p" := by
  refine ⟨by decide, by decide, by decide⟩

/-- C9: the three day-normalization examples: delimited `MWF` (compact
scan), alias forms `Mon, Wednesday, Fri`, and the greedy compact scan of
`TThS` producing `T`, `Th` and a literal `S` that the canonical filter
drops. -/
theorem c9_day_normalization_examples :
    day_result_tokens "MWF" = ["M", "W", "F"] ∧
    day_result_tokens "Mon, Wednesday, Fri" = ["M", "W", "F"] ∧
    _parse_compact_days "TThS".data = ["T", "Th", "S"] ∧
    day_result_tokens "TThS" = ["T", "Th"] ∧
    normalize_days_string "MWF" = "M,W,F" ∧
    normalize_days_string "Mon, Wednesday, Fri" = "M,W,F" ∧
    normalize_days_string "TThS" = "T,Th" := by
  refine ⟨by decide, by decide, by decide, by decide, by decide, by decide, by decide⟩

lemma splitOnChar_cons_eq (sep c : Char) (t : List Char) :
    splitOnChar sep (c :: t) =
      if c = sep then [] :: splitOnChar sep t
      else
        match splitOnChar sep t with
        | h :: t2 => (c :: h) :: t2
        | [] => [[c]] := rfl

lemma splitOnChar_no_sep (sep : Char) (l : List Char) (h : sep ∉ l) :
    splitOnChar sep l = [l] := by
  induction l with
  | nil => rfl
  | cons c t ih =>
    have hc : c ≠ sep := fun hh => h (hh ▸ List.mem_cons_self c t)
    have ht : sep ∉ t := fun hh => h (List.mem_cons_of_mem c hh)
    rw [splitOnChar_cons_eq, if_neg hc, ih ht]

lemma splitOnChar_append_sep (sep : Char) (x r : List Char) (h : sep ∉ x) :
    splitOnChar sep (x ++ sep :: r) = x :: splitOnChar sep r := by
  induction x with
  | nil => rw [List.nil_append, splitOnChar_cons_eq, if_pos rfl]
  | cons c t ih =>
    have hc : c ≠ sep := fun hh => h (hh ▸ List.mem_cons_self c t)
    have ht : sep ∉ t := fun hh => h (List.mem_cons_of_mem c hh)
    rw [List.cons_append, splitOnChar_cons_eq, if_neg hc, ih ht]

lemma joinComma_roundtrip (ts : List String)
    (h : ∀ t ∈ ts, t.data ≠ [] ∧ ',' ∉ t.data) :
    ((splitOnChar ',' (joinComma ts)).filter (fun p => p ≠ [])).map String.mk = ts := by
  induction ts with
  | nil => rfl
  | cons t rest ih =>
    cases rest with
    | nil =>
      have ht := h t (List.mem_cons_self t [])
      show ((splitOnChar ',' t.data).filter (fun p => p ≠ [])).map String.mk = [t]
      rw [splitOnChar_no_sep ',' t.data ht.2]
      simp [List.filter, ht.1]
    | cons t2 rest2 =>
      have ht := h t (List.mem_cons_self t _)
      have hrest : ∀ x ∈ t2 :: rest2, x.data ≠ [] ∧ ',' ∉ x.data :=
        fun x hx => h x (List.mem_cons_of_mem t hx)
      show ((splitOnChar ','
          (t.data ++ ',' :: joinComma (t2 :: rest2))).filter (fun p => p ≠ [])).map
            String.mk = t :: t2 :: rest2
      rw [splitOnChar_append_sep ',' t.data _ ht.2]
      rw [List.filter_cons_of_pos (by simpa using ht.1)]
      rw [List.map_cons]
      rw [ih hrest]

lemma canonical_token_shape :
    ∀ t ∈ canonical_days, t.data ≠ [] ∧ ',' ∉ t.data := by decide

lemma day_result_tokens_eq (s : String) :
    day_result_tokens s =
      (day_raw_tokens s).filter (fun t => canonical_days.contains t) := by
  unfold day_result_tokens normalize_days_string
  apply joinComma_roundtrip
  intro t ht
  rw [List.mem_filter] at ht
  have hmem : t ∈ canonical_days := by
    have := ht.2
    simpa [List.contains, List.elem_iff] using this
  exact canonical_token_shape t hmem

lemma joinComma_eq_nil_iff (ts : List String) (h : ∀ t ∈ ts, t.data ≠ []) :
    joinComma ts = [] ↔ ts = [] := by
  cases ts with
  | nil => simp [joinComma]
  | cons t rest =>
    constructor
    · intro hj
      exfalso
      cases rest with
      | nil => exact h t (List.mem_cons_self t _) hj
      | cons t2 r2 =>
        have hj2 : t.data ++ ',' :: joinComma (t2 :: r2) = [] := hj
        rcases List.append_eq_nil.1 hj2 with ⟨_, h2⟩
        cases h2
    · intro hh; cases hh

/-- C5 counterexample: the token sequence produced by
`normalize_days_string` is not duplicate-free — on input `"M,M"` the token
`M` occurs twice in the result. -/
theorem c5_counterexample :
    normalize_days_string "M,M" = "M,M" ∧
    day_result_tokens "M,M" = ["M", "M"] ∧
    ¬ (day_result_tokens "M,M").Nodup := by
  refine ⟨by decide, by decide, by decide⟩

/-- C5 (amended): the token sequence produced by `normalize_days_string` is
exactly the canonical-filtered raw token list in scan order, with duplicates
preserved (only the set-valued `normalize_days` collapses duplicates); every
result token lies in the canonical set; and the result is empty exactly when
the input is empty or yields no recognizable (canonical) day token. -/
theorem c5_amended :
    (∀ s : String, day_result_tokens s =
      (day_raw_tokens s).filter (fun t => canonical_days.contains t)) ∧
    (∀ (s : String) (t : String), t ∈ day_result_tokens s → t ∈ canonical_days) ∧
    (∀ s : String, (normalize_days s).Nodup) ∧
    (∀ s : String, normalize_days_string s = "" ↔
      ∀ t ∈ day_raw_tokens s, canonical_days.contains t = false) := by
  refine ⟨day_result_tokens_eq, ?_, ?_, ?_⟩
  · intro s t ht
    rw [day_result_tokens_eq, List.mem_filter] at ht
    simpa [List.contains, List.elem_iff] using ht.2
  · intro s
    exact List.nodup_dedup _
  · intro s
    have hshape : ∀ t ∈ (day_raw_tokens s).filter
        (fun t => canonical_days.contains t), t.data ≠ [] := by
      intro t ht
      rw [List.mem_filter] at ht
      have hmem : t ∈ canonical_days := by
        simpa [List.contains, List.elem_iff] using ht.2
      exact (canonical_token_shape t hmem).1
    constructor
    · intro hempty
      have hdata : joinComma ((day_raw_tokens s).filter
          (fun t => canonical_days.contains t)) = [] := by
        have : (normalize_days_string s).data = ("" : String).data := by rw [hempty]
        exact this
      have hnil := (joinComma_eq_nil_iff _ hshape).1 hdata
      rw [List.filter_eq_nil_iff] at hnil
      intro t ht
      have := hnil t ht
      simpa using this
    · intro hall
      have hnil : (day_raw_tokens s).filter (fun t => canonical_days.contains t) = [] := by
        rw [List.filter_eq_nil_iff]
        intro t ht hcontra
        rw [hall t ht] at hcontra
        cases hcontra
      unfold normalize_days_string
      rw [hnil]
      rfl

/-- C5 witness: the amended statement instantiated at concrete inputs. -/
theorem c5_witness :
    ("M" : String) ∈ canonical_days ∧
    (normalize_days_string "xyz" = "" ↔
      ∀ t ∈ day_raw_tokens "xyz", canonical_days.contains t = false) :=
  ⟨c5_amended.2.1 "MWF" "M" (by decide), c5_amended.2.2.2 "xyz"⟩

lemma canonical_props : ∀ t ∈ canonical_days,
    delimToken t.data = some t ∧ t.data.length ≤ 2 ∧ ',' ∉ t.data ∧
    '/' ∉ t.data ∧ ' ' ∉ t.data ∧ t.data ≠ [] := by decide

lemma pyReplaceChar_id (l : List Char) (a b : Char) (h : ∀ c ∈ l, c ≠ a) :
    pyReplaceChar l a b = l := by
  unfold pyReplaceChar
  induction l with
  | nil => rfl
  | cons c t ih =>
    rw [List.map_cons, if_neg (h c (List.mem_cons_self c t)),
        ih (fun x hx => h x (List.mem_cons_of_mem c hx))]

lemma mem_joinComma {c : Char} {ts : List String} (h : c ∈ joinComma ts) :
    c = ',' ∨ ∃ t ∈ ts, c ∈ t.data := by
  induction ts with
  | nil => cases h
  | cons t rest ih =>
    cases rest with
    | nil => exact Or.inr ⟨t, List.mem_cons_self t _, h⟩
    | cons t2 r2 =>
      have h2 : c ∈ t.data ++ ',' :: joinComma (t2 :: r2) := h
      rcases List.mem_append.1 h2 with h3 | h3
      · exact Or.inr ⟨t, List.mem_cons_self t _, h3⟩
      · rcases List.mem_cons.1 h3 with h4 | h4
        · exact Or.inl h4
        · rcases ih h4 with h5 | ⟨u, hu, hc⟩
          · exact Or.inl h5
          · exact Or.inr ⟨u, List.mem_cons_of_mem t hu, hc⟩

lemma filterMap_delim_map_data (L : List String)
    (h : ∀ t ∈ L, delimToken t.data = some t) :
    (L.map String.data).filterMap delimToken = L := by
  induction L with
  | nil => rfl
  | cons t rest ih =>
    rw [List.map_cons, List.filterMap_cons, h t (List.mem_cons_self t rest),
        ih (fun x hx => h x (List.mem_cons_of_mem t hx))]

lemma day_raw_tokens_joinComma (L : List String) (h : ∀ t ∈ L, t ∈ canonical_days) :
    day_raw_tokens (String.mk (joinComma L)) = L := by
  cases L with
  | nil => rfl
  | cons t0 rest =>
    have hprops : ∀ t ∈ t0 :: rest,
        delimToken t.data = some t ∧ t.data.length ≤ 2 ∧ ',' ∉ t.data ∧
        '/' ∉ t.data ∧ ' ' ∉ t.data ∧ t.data ≠ [] :=
      fun t ht => canonical_props t (h t ht)
    have hjoin_ne : joinComma (t0 :: rest) ≠ [] := by
      intro hj
      have := (joinComma_eq_nil_iff (t0 :: rest)
        (fun t ht => (hprops t ht).2.2.2.2.2)).1 hj
      cases this
    have hne : String.mk (joinComma (t0 :: rest)) ≠ "" := by
      intro hs
      exact hjoin_ne (congrArg String.data hs)
    have hnoslash : ∀ c ∈ joinComma (t0 :: rest), c ≠ '/' := by
      intro c hc hcontra
      rcases mem_joinComma hc with h1 | ⟨t, ht, hct⟩
      · rw [hcontra] at h1; cases h1
      · rw [hcontra] at hct
        exact (hprops t ht).2.2.2.1 hct
    have hnospace : ∀ c ∈ joinComma (t0 :: rest), c ≠ ' ' := by
      intro c hc hcontra
      rcases mem_joinComma hc with h1 | ⟨t, ht, hct⟩
      · rw [hcontra] at h1; cases h1
      · rw [hcontra] at hct
        exact (hprops t ht).2.2.2.2.1 hct
    have hsplit : ((splitOnChar ',' (joinComma (t0 :: rest))).filter
        (fun p => p ≠ [])).map String.mk = t0 :: rest :=
      joinComma_roundtrip _ (fun t ht => ⟨(hprops t ht).2.2.2.2.2, (hprops t ht).2.2.1⟩)
    have hparts : day_parts (String.mk (joinComma (t0 :: rest))) =
        (t0 :: rest).map String.data := by
      have hcomp : (String.data ∘ String.mk) = id := funext fun x => rfl
      have h2 := congrArg (List.map String.data) hsplit
      rw [List.map_map, hcomp, List.map_id] at h2
      unfold day_parts
      have hdata : (String.mk (joinComma (t0 :: rest))).data = joinComma (t0 :: rest) := rfl
      rw [hdata, pyReplaceChar_id _ _ _ hnoslash, pyReplaceChar_id _ _ _ hnospace]
      exact h2
    unfold day_raw_tokens
    rw [if_neg hne, hparts]
    cases rest with
    | nil =>
      have ht0 := hprops t0 (List.mem_cons_self t0 [])
      have hlen : ¬ t0.data.length > 2 := by
        have := ht0.2.1
        omega
      rw [List.map_cons, List.map_nil]
      show (if (decide (t0.data.length > 2) && pyIsAlpha t0.data) = true
          then _parse_compact_days t0.data
          else List.filterMap delimToken [t0.data]) = [t0]
      rw [if_neg (fun hcontra => hlen (by
            rw [Bool.and_eq_true, decide_eq_true_eq] at hcontra
            exact hcontra.1)),
        List.filterMap_cons, ht0.1, List.filterMap_nil]
    | cons t1 r1 =>
      rw [List.map_cons, List.map_cons]
      exact filterMap_delim_map_data (t0 :: t1 :: r1)
        (fun t ht => (hprops t ht).1)

lemma normalize_days_string_idem (s : String) :
    normalize_days_string (normalize_days_string s) = normalize_days_string s := by
  unfold normalize_days_string
  set L := (day_raw_tokens s).filter (fun t => canonical_days.contains t) with hL
  have hcanon : ∀ t ∈ L, t ∈ canonical_days := by
    intro t ht
    rw [hL, List.mem_filter] at ht
    simpa [List.contains, List.elem_iff] using ht.2
  rw [day_raw_tokens_joinComma L hcanon]
  have hfilter : L.filter (fun t => canonical_days.contains t) = L := by
    rw [List.filter_eq_self]
    intro t ht
    have := hcanon t ht
    simpa [List.contains, List.elem_iff] using this
  rw [hfilter]

lemma dChar_not_space : ∀ n : Nat, isPySpace (dChar n) = false := by
  intro n
  unfold dChar
  rcases n with _|_|_|_|_|_|_|_|_|m <;> rfl

lemma dChar_digit : ∀ n : Nat, isDigitChar (dChar n) = true := by
  intro n
  unfold dChar
  rcases n with _|_|_|_|_|_|_|_|_|m <;> rfl

lemma digitVal_dChar (n : Nat) (hn : n ≤ 9) : digitVal (dChar n) = n := by
  interval_cases n <;> rfl

lemma to_minutes_lt {h m : Nat} {c : Char} {v : Nat}
    (hv : _to_minutes h m c = some v) : v < 1440 := by
  unfold _to_minutes at hv
  by_cases hr : (decide (h < 1) || decide (h > 12) || decide (m > 59)) = true
  · rw [if_pos hr] at hv; cases hv
  · rw [if_neg hr] at hv
    simp only [Bool.or_eq_true, decide_eq_true_eq, not_or] at hr
    have hv' : (if lowerChar c = 'a' then (if h = 12 then 0 else h)
        else (if h = 12 then 12 else h + 12)) * 60 + m = v := by
      injection hv
    split_ifs at hv' <;> omega

lemma parse_time_range_format {sm em : Nat} (h1 : sm < em) (h2 : em < 1440) :
    parse_time_range (format_time_24 sm ++ "-" ++ format_time_24 em) = some (sm, em) := by
  have hsm : sm < 1440 := lt_trans h1 h2
  have b1 : sm / 60 / 10 ≤ 9 := by omega
  have b2 : sm / 60 % 10 ≤ 9 := by omega
  have b3 : sm % 60 / 10 ≤ 9 := by omega
  have b4 : sm % 60 % 10 ≤ 9 := by omega
  have b5 : em / 60 / 10 ≤ 9 := by omega
  have b6 : em / 60 % 10 ≤ 9 := by omega
  have b7 : em % 60 / 10 ≤ 9 := by omega
  have b8 : em % 60 % 10 ≤ 9 := by omega
  have hdata : (format_time_24 sm ++ "-" ++ format_time_24 em).data =
      [dChar (sm/60/10), dChar (sm/60%10), ':', dChar (sm%60/10), dChar (sm%60%10),
       '-', dChar (em/60/10), dChar (em/60%10), ':', dChar (em%60/10), dChar (em%60%10)] := rfl
  unfold parse_time_range
  rw [hdata]
  have hstrip : pyStrip
      [dChar (sm/60/10), dChar (sm/60%10), ':', dChar (sm%60/10), dChar (sm%60%10),
       '-', dChar (em/60/10), dChar (em/60%10), ':', dChar (em%60/10), dChar (em%60%10)] =
      [dChar (sm/60/10), dChar (sm/60%10), ':', dChar (sm%60/10), dChar (sm%60%10),
       '-', dChar (em/60/10), dChar (em/60%10), ':', dChar (em%60/10), dChar (em%60%10)] := by
    simp [pyStrip, List.dropWhile_cons, dChar_not_space]
  rw [hstrip]
  have hmatch : timeRangeMatch
      [dChar (sm/60/10), dChar (sm/60%10), ':', dChar (sm%60/10), dChar (sm%60%10),
       '-', dChar (em/60/10), dChar (em/60%10), ':', dChar (em%60/10), dChar (em%60%10)] =
      some (digitVal (dChar (sm/60/10)) * 10 + digitVal (dChar (sm/60%10)),
            digitVal (dChar (sm%60/10)) * 10 + digitVal (dChar (sm%60%10)),
            digitVal (dChar (em/60/10)) * 10 + digitVal (dChar (em/60%10)),
            digitVal (dChar (em%60/10)) * 10 + digitVal (dChar (em%60%10))) := by
    show (if ((':' : Char) = ':' && ('-' : Char) = '-' && (':' : Char) = ':' &&
          isDigitChar (dChar (sm/60/10)) && isDigitChar (dChar (sm/60%10)) &&
          isDigitChar (dChar (sm%60/10)) && isDigitChar (dChar (sm%60%10)) &&
          isDigitChar (dChar (em/60/10)) && isDigitChar (dChar (em/60%10)) &&
          isDigitChar (dChar (em%60/10)) && isDigitChar (dChar (em%60%10))) = true
        then some (digitVal (dChar (sm/60/10)) * 10 + digitVal (dChar (sm/60%10)),
                   digitVal (dChar (sm%60/10)) * 10 + digitVal (dChar (sm%60%10)),
                   digitVal (dChar (em/60/10)) * 10 + digitVal (dChar (em/60%10)),
                   digitVal (dChar (em%60/10)) * 10 + digitVal (dChar (em%60%10)))
        else none) =
      some (digitVal (dChar (sm/60/10)) * 10 + digitVal (dChar (sm/60%10)),
            digitVal (dChar (sm%60/10)) * 10 + digitVal (dChar (sm%60%10)),
            digitVal (dChar (em/60/10)) * 10 + digitVal (dChar (em/60%10)),
            digitVal (dChar (em%60/10)) * 10 + digitVal (dChar (em%60%10)))
    rw [if_pos (by simp [dChar_digit])]
  rw [hmatch]
  have hsm' : digitVal (dChar (sm/60/10)) * 10 + digitVal (dChar (sm/60%10)) = sm / 60 := by
    rw [digitVal_dChar _ b1, digitVal_dChar _ b2]; omega
  have hsm'' : digitVal (dChar (sm%60/10)) * 10 + digitVal (dChar (sm%60%10)) = sm % 60 := by
    rw [digitVal_dChar _ b3, digitVal_dChar _ b4]; omega
  have hem' : digitVal (dChar (em/60/10)) * 10 + digitVal (dChar (em/60%10)) = em / 60 := by
    rw [digitVal_dChar _ b5, digitVal_dChar _ b6]; omega
  have hem'' : digitVal (dChar (em%60/10)) * 10 + digitVal (dChar (em%60%10)) = em % 60 := by
    rw [digitVal_dChar _ b7, digitVal_dChar _ b8]; omega
  rw [hsm', hsm'', hem', hem'']
  show (if sm / 60 * 60 + sm % 60 ≥ em / 60 * 60 + em % 60 then none
        else some (sm / 60 * 60 + sm % 60, em / 60 * 60 + em % 60)) = some (sm, em)
  rw [if_neg (by omega)]
  have hx : sm / 60 * 60 + sm % 60 = sm := by omega
  have hy : em / 60 * 60 + em % 60 = em := by omega
  rw [hx, hy]

lemma parse_time_lpu_roundtrip {s d : String} {sm em : Nat}
    (h : parse_time_lpu s = some (d, sm, em)) :
    sm < em ∧ em < 1440 ∧
    d = format_time_24 sm ++ "-" ++ format_time_24 em ∧
    parse_time_range d = some (sm, em) := by
  unfold parse_time_lpu at h
  rcases hm : lpuMatch s.data with _ | ⟨h1, m1, c1, h2, m2, c2⟩ <;> rw [hm] at h
  · have hnone : (none : Option (String × Nat × Nat)) = some (d, sm, em) := h
    cases hnone
  · have h' : (match _to_minutes h1 m1 c1, _to_minutes h2 m2 c2 with
        | some start_minutes, some end_minutes =>
          if start_minutes ≥ end_minutes then none
          else some (format_time_24 start_minutes ++ "-" ++ format_time_24 end_minutes,
                     start_minutes, end_minutes)
        | _, _ => none) = some (d, sm, em) := h
    rcases ht1 : _to_minutes h1 m1 c1 with _ | v1 <;> rw [ht1] at h'
    · have hnone : (none : Option (String × Nat × Nat)) = some (d, sm, em) := h'
      cases hnone
    rcases ht2 : _to_minutes h2 m2 c2 with _ | v2 <;> rw [ht2] at h'
    · have hnone : (none : Option (String × Nat × Nat)) = some (d, sm, em) := h'
      cases hnone
    have h'' : (if v1 ≥ v2 then none
        else some (format_time_24 v1 ++ "-" ++ format_time_24 v2, v1, v2)) =
        some (d, sm, em) := h'
    by_cases hge : v1 ≥ v2
    · rw [if_pos hge] at h''
      cases h''
    · rw [if_neg hge] at h''
      have hinj : (format_time_24 v1 ++ "-" ++ format_time_24 v2, v1, v2)
          = (d, sm, em) := by injection h''
      obtain ⟨hd, hsm, hem⟩ : format_time_24 v1 ++ "-" ++ format_time_24 v2 = d ∧
          v1 = sm ∧ v2 = em := by
        simpa [Prod.ext_iff] using hinj
      subst hsm
      subst hem
      have hlt : v1 < v2 := by omega
      have hb := to_minutes_lt ht2
      exact ⟨hlt, hb, hd.symm, hd ▸ parse_time_range_format hlt hb⟩

/-- C6 counterexample: `parse_time_lpu` rejects its own canonical 24-hour
output (the 24-hour string has no meridiem marker, so `LPU_TIME_RE` cannot
match it), so re-running the standard-time parser on its canonical output
does not reproduce the canonical values. -/
theorem c6_counterexample :
    parse_time_lpu "10:00a-12:00p" = some ("10:00-12:00", 600, 720) ∧
    parse_time_lpu "10:00-12:00" = none :=
  ⟨by decide, by decide⟩

/-- C6 (amended): `normalize_days_string` is idempotent on its own canonical
output, and the canonical 24-hour string produced by `parse_time_lpu`
round-trips through the 24-hour parser `parse_time_range`, which recovers
exactly the same minute pair; `parse_time_lpu` itself rejects its own
24-hour output because that output carries no meridiem marker. -/
theorem c6_idempotence_amended :
    (∀ s : String,
      normalize_days_string (normalize_days_string s) = normalize_days_string s) ∧
    (∀ (s d : String) (sm em : Nat), parse_time_lpu s = some (d, sm, em) →
      parse_time_range d = some (sm, em) ∧
      d = format_time_24 sm ++ "-" ++ format_time_24 em) ∧
    parse_time_lpu "10:00-12:00" = none := by
  refine ⟨normalize_days_string_idem, ?_, by decide⟩
  intro s d sm em h
  obtain ⟨_, _, hd, hp⟩ := parse_time_lpu_roundtrip h
  exact ⟨hp, hd⟩

/-- C6 witness: the amended statement instantiated at a concrete parse. -/
theorem c6_witness :
    normalize_days_string (normalize_days_string "MWF") = normalize_days_string "MWF" ∧
    (parse_time_range "10:00-12:00" = some (600, 720) ∧
      ("10:00-12:00" : String) = format_time_24 600 ++ "-" ++ format_time_24 720) :=
  ⟨c6_idempotence_amended.1 "MWF",
   c6_idempotence_amended.2.1 "10:00a-12:00p" "10:00-12:00" 600 720 (by decide)⟩

lemma space_enum {c : Char} (h : isPySpace c = true) :
    c = ' ' ∨ c = '\t' ∨ c = '\n' ∨ c = '\r' ∨ c = '\x0b' ∨ c = '\x0c' := by
  unfold isPySpace at h
  simp only [Bool.or_eq_true, decide_eq_true_eq] at h
  tauto

lemma digit_not_space {c : Char} (h : isDigitChar c = true) : isPySpace c = false := by
  cases hs : isPySpace c
  · rfl
  · rcases space_enum hs with h1 | h1 | h1 | h1 | h1 | h1 <;> subst h1 <;> cases h

lemma ap_not_space {c : Char} (h : (lowerChar c = 'a' ∨ lowerChar c = 'p')) :
    isPySpace c = false := by
  cases hs : isPySpace c
  · rfl
  · rcases space_enum hs with h1 | h1 | h1 | h1 | h1 | h1 <;> subst h1 <;>
      rcases h with h2 | h2 <;> cases h2

lemma dash_not_space : isPySpace '-' = false := by decide

lemma colon_not_digit : isDigitChar ':' = false := by decide

lemma takeWhile_dropWhile_append (p : Char → Bool) (w r : List Char)
    (hw : ∀ c ∈ w, p c = true)
    (hr : ∀ c ∈ r.take 1, p c = false) :
    (w ++ r).takeWhile p = w ∧ (w ++ r).dropWhile p = r := by
  induction w with
  | nil =>
    cases r with
    | nil => exact ⟨rfl, rfl⟩
    | cons d t =>
      have hd : p d = false := hr d (by simp)
      constructor
      · rw [List.nil_append, List.takeWhile_cons, hd]; rfl
      · rw [List.nil_append, List.dropWhile_cons, hd]; rfl
  | cons a w' ih =>
    have ha : p a = true := hw a (List.mem_cons_self a w')
    have hw' : ∀ c ∈ w', p c = true := fun c hc => hw c (List.mem_cons_of_mem a hc)
    obtain ⟨ih1, ih2⟩ := ih hw'
    constructor
    · rw [List.cons_append, List.takeWhile_cons, ha, if_pos rfl, ih1]
    · rw [List.cons_append, List.dropWhile_cons, ha, if_pos rfl, ih2]

lemma natOfDigits_pair (a b : Char) :
    natOfDigits [a, b] = digitVal a * 10 + digitVal b := by
  unfold natOfDigits
  simp [List.foldl]

/-- The spec's 12-hour to 24-hour hour conversion: meridiem `a` maps hour 12
to 0 and leaves other hours unchanged; meridiem `p` maps hour 12 to 12 and
adds 12 to other hours. -/
def spec_hour24 (hour : Nat) (c : Char) : Nat :=
  if lowerChar c = 'a' then (if hour = 12 then 0 else hour)
  else (if hour = 12 then 12 else hour + 12)

/-- A run of whitespace characters (the regex `\s*`). -/
def SpaceRun (l : List Char) : Prop := ∀ c ∈ l, isPySpace c = true

/-- A run of decimal digits. -/
def DigitRun (l : List Char) : Prop := ∀ c ∈ l, isDigitChar c = true

/-- One side of the spec grammar `H:MM [ap]` (amended: minutes required)
with its range constraints: a 1-or-2-digit hour in 1..12, a 2-digit minute
in 0..59, and a case-insensitive meridiem letter. -/
def SpecClockSide (hd md : List Char) (c : Char) : Prop :=
  hd ≠ [] ∧ hd.length ≤ 2 ∧ DigitRun hd ∧ md.length = 2 ∧ DigitRun md ∧
  (lowerChar c = 'a' ∨ lowerChar c = 'p') ∧
  1 ≤ natOfDigits hd ∧ natOfDigits hd ≤ 12 ∧ natOfDigits md ≤ 59

/-- The minutes-past-midnight value of one grammar side under the spec's
12-hour rules. -/
def spec_side_minutes (hd md : List Char) (c : Char) : Nat :=
  spec_hour24 (natOfDigits hd) c * 60 + natOfDigits md

/-- The spec's input grammar for the standard time parser, amended to
require the minutes component: a whitespace-tolerant decomposition
`\s* H:MM \s* [ap] \s* - \s* H:MM \s* [ap] \s*` with in-range components
and a strictly increasing minute pair. -/
def SpecLpuAccepts (s : String) : Prop :=
  ∃ (w0 hd1 md1 w1 w2 w3 hd2 md2 w4 w5 : List Char) (c1 c2 : Char),
    s.data = w0 ++ (hd1 ++ (':' :: (md1 ++ (w1 ++ (c1 :: (w2 ++ ('-' ::
      (w3 ++ (hd2 ++ (':' :: (md2 ++ (w4 ++ (c2 :: w5))))))))))))) ∧
    SpaceRun w0 ∧ SpaceRun w1 ∧ SpaceRun w2 ∧ SpaceRun w3 ∧ SpaceRun w4 ∧ SpaceRun w5 ∧
    SpecClockSide hd1 md1 c1 ∧ SpecClockSide hd2 md2 c2 ∧
    spec_side_minutes hd1 md1 c1 < spec_side_minutes hd2 md2 c2

lemma skipWs_of_decomp (w r : List Char) (hw : SpaceRun w)
    (hr : ∀ c ∈ r.take 1, isPySpace c = false) :
    skipWs (w ++ r) = r :=
  (takeWhile_dropWhile_append isPySpace w r hw hr).2

lemma matchClock_of_decomp (hd : List Char) (d1 d2 : Char) (r : List Char)
    (hne : hd ≠ []) (hlen : hd.length ≤ 2) (hdig : DigitRun hd)
    (h1 : isDigitChar d1 = true) (h2 : isDigitChar d2 = true) :
    matchClock (hd ++ ':' :: d1 :: d2 :: r) =
      some (natOfDigits hd, digitVal d1 * 10 + digitVal d2, r) := by
  obtain ⟨htake, hdrop⟩ := takeWhile_dropWhile_append isDigitChar hd (':' :: d1 :: d2 :: r)
    hdig (by intro c hc; simp at hc; subst hc; decide)
  have hlenpos : 0 < hd.length := List.length_pos.2 hne
  unfold matchClock
  rw [htake, hdrop]
  rw [if_pos (by
    simp only [Bool.or_eq_true, decide_eq_true_eq]
    omega)]
  show (if ((':' : Char) = ':' && isDigitChar d1 && isDigitChar d2) = true
      then some (natOfDigits hd, digitVal d1 * 10 + digitVal d2, r) else none) =
    some (natOfDigits hd, digitVal d1 * 10 + digitVal d2, r)
  rw [if_pos (by simp [h1, h2])]

lemma matchMeridiem_of_decomp (w : List Char) (c : Char) (r : List Char)
    (hw : SpaceRun w) (hap : lowerChar c = 'a' ∨ lowerChar c = 'p') :
    matchMeridiem (w ++ c :: r) = some (c, r) := by
  have hdrop : skipWs (w ++ c :: r) = c :: r :=
    skipWs_of_decomp w (c :: r) hw
      (by intro x hx; simp at hx; subst hx; exact ap_not_space hap)
  unfold matchMeridiem
  rw [hdrop]
  show (if (lowerChar c = 'a' || lowerChar c = 'p') = true then some (c, r) else none) =
    some (c, r)
  rw [if_pos (by rcases hap with h | h <;> simp [h])]

lemma lpu_accepts_sound {s : String} (h : SpecLpuAccepts s) :
    ∃ r, parse_time_lpu s = some r := by
  obtain ⟨w0, hd1, md1, w1, w2, w3, hd2, md2, w4, w5, c1, c2, heq,
    hw0, hw1, hw2, hw3, hw4, hw5, hs1, hs2, hlt⟩ := h
  obtain ⟨hne1, hlen1, hdig1, hmlen1, hmdig1, hap1, hlo1, hhi1, hmhi1⟩ := hs1
  obtain ⟨hne2, hlen2, hdig2, hmlen2, hmdig2, hap2, hlo2, hhi2, hmhi2⟩ := hs2
  obtain ⟨d1, d2, rfl⟩ := List.length_eq_two.1 hmlen1
  obtain ⟨d3, d4, rfl⟩ := List.length_eq_two.1 hmlen2
  have hdd1 : isDigitChar d1 = true := hmdig1 d1 (by simp)
  have hdd2 : isDigitChar d2 = true := hmdig1 d2 (by simp)
  have hdd3 : isDigitChar d3 = true := hmdig2 d3 (by simp)
  have hdd4 : isDigitChar d4 = true := hmdig2 d4 (by simp)
  rw [natOfDigits_pair] at hmhi1 hmhi2
  have hstep1 : skipWs s.data = hd1 ++ (':' :: ([d1, d2] ++ (w1 ++ (c1 ::
      (w2 ++ ('-' :: (w3 ++ (hd2 ++ (':' :: ([d3, d4] ++ (w4 ++ (c2 :: w5)))))))))))) := by
    rw [heq]
    apply skipWs_of_decomp w0 _ hw0
    cases hd1 with
    | nil => exact absurd rfl hne1
    | cons e t =>
      intro c hc
      simp at hc
      rw [hc]
      exact digit_not_space (hdig1 e (by simp))
  have hC1 : matchClock (skipWs s.data) =
      some (natOfDigits hd1, digitVal d1 * 10 + digitVal d2,
        w1 ++ (c1 :: (w2 ++ ('-' ::
          (w3 ++ (hd2 ++ (':' :: ([d3, d4] ++ (w4 ++ (c2 :: w5)))))))))) := by
    rw [hstep1]
    exact matchClock_of_decomp hd1 d1 d2 _ hne1 hlen1 hdig1 hdd1 hdd2
  have hM1 : matchMeridiem
      (w1 ++ (c1 :: (w2 ++ ('-' ::
        (w3 ++ (hd2 ++ (':' :: ([d3, d4] ++ (w4 ++ (c2 :: w5)))))))))) =
      some (c1, w2 ++ ('-' ::
        (w3 ++ (hd2 ++ (':' :: ([d3, d4] ++ (w4 ++ (c2 :: w5)))))))) :=
    matchMeridiem_of_decomp w1 c1 _ hw1 hap1
  have hskip2 : skipWs (w2 ++ ('-' ::
      (w3 ++ (hd2 ++ (':' :: ([d3, d4] ++ (w4 ++ (c2 :: w5)))))))) =
      '-' :: (w3 ++ (hd2 ++ (':' :: ([d3, d4] ++ (w4 ++ (c2 :: w5)))))) := by
    apply skipWs_of_decomp w2 _ hw2
    intro c hc
    simp at hc
    subst hc
    decide
  have hstep3 : skipWs (w3 ++ (hd2 ++ (':' :: ([d3, d4] ++ (w4 ++ (c2 :: w5)))))) =
      hd2 ++ (':' :: ([d3, d4] ++ (w4 ++ (c2 :: w5)))) := by
    apply skipWs_of_decomp w3 _ hw3
    cases hd2 with
    | nil => exact absurd rfl hne2
    | cons e t =>
      intro c hc
      simp at hc
      rw [hc]
      exact digit_not_space (hdig2 e (by simp))
  have hC2 : matchClock (hd2 ++ (':' :: ([d3, d4] ++ (w4 ++ (c2 :: w5))))) =
      some (natOfDigits hd2, digitVal d3 * 10 + digitVal d4, w4 ++ (c2 :: w5)) :=
    matchClock_of_decomp hd2 d3 d4 _ hne2 hlen2 hdig2 hdd3 hdd4
  have hM2 : matchMeridiem (w4 ++ (c2 :: w5)) = some (c2, w5) :=
    matchMeridiem_of_decomp w4 c2 w5 hw4 hap2
  have hend : skipWs w5 = [] := List.dropWhile_eq_nil_iff.2 hw5
  have hlpu : lpuMatch s.data =
      some (natOfDigits hd1, digitVal d1 * 10 + digitVal d2, c1,
            natOfDigits hd2, digitVal d3 * 10 + digitVal d4, c2) := by
    unfold lpuMatch
    simp only [hC1, hM1, hskip2, hstep3, hC2, hM2, hend, List.isEmpty_nil, if_true]
  have ht1 : _to_minutes (natOfDigits hd1) (digitVal d1 * 10 + digitVal d2) c1 =
      some (spec_side_minutes hd1 [d1, d2] c1) := by
    show (if (decide (natOfDigits hd1 < 1) || decide (natOfDigits hd1 > 12) ||
          decide (digitVal d1 * 10 + digitVal d2 > 59)) = true then none
        else some ((if lowerChar c1 = 'a'
            then (if natOfDigits hd1 = 12 then 0 else natOfDigits hd1)
            else (if natOfDigits hd1 = 12 then 12 else natOfDigits hd1 + 12)) * 60 +
          (digitVal d1 * 10 + digitVal d2))) = some (spec_side_minutes hd1 [d1, d2] c1)
    rw [if_neg (by
      simp only [Bool.or_eq_true, decide_eq_true_eq]
      omega)]
    unfold spec_side_minutes spec_hour24
    rw [natOfDigits_pair]
  have ht2 : _to_minutes (natOfDigits hd2) (digitVal d3 * 10 + digitVal d4) c2 =
      some (spec_side_minutes hd2 [d3, d4] c2) := by
    show (if (decide (natOfDigits hd2 < 1) || decide (natOfDigits hd2 > 12) ||
          decide (digitVal d3 * 10 + digitVal d4 > 59)) = true then none
        else some ((if lowerChar c2 = 'a'
            then (if natOfDigits hd2 = 12 then 0 else natOfDigits hd2)
            else (if natOfDigits hd2 = 12 then 12 else natOfDigits hd2 + 12)) * 60 +
          (digitVal d3 * 10 + digitVal d4))) = some (spec_side_minutes hd2 [d3, d4] c2)
    rw [if_neg (by
      simp only [Bool.or_eq_true, decide_eq_true_eq]
      omega)]
    unfold spec_side_minutes spec_hour24
    rw [natOfDigits_pair]
  refine ⟨(format_time_24 (spec_side_minutes hd1 [d1, d2] c1) ++ "-" ++
      format_time_24 (spec_side_minutes hd2 [d3, d4] c2),
      spec_side_minutes hd1 [d1, d2] c1, spec_side_minutes hd2 [d3, d4] c2), ?_⟩
  unfold parse_time_lpu
  simp only [hlpu, ht1, ht2]
  rw [if_neg (by omega)]

lemma matchClock_some {l : List Char} {h m : Nat} {r : List Char}
    (hm : matchClock l = some (h, m, r)) :
    ∃ hd d1 d2, l = hd ++ (':' :: d1 :: d2 :: r) ∧ DigitRun hd ∧ hd ≠ [] ∧
      hd.length ≤ 2 ∧ isDigitChar d1 = true ∧ isDigitChar d2 = true ∧
      h = natOfDigits hd ∧ m = digitVal d1 * 10 + digitVal d2 := by
  unfold matchClock at hm
  by_cases hlen : (decide ((l.takeWhile isDigitChar).length = 1) ||
      decide ((l.takeWhile isDigitChar).length = 2)) = true
  case neg => rw [if_neg hlen] at hm; cases hm
  case pos =>
    rw [if_pos hlen] at hm
    rcases hdrop : l.dropWhile isDigitChar with _ | ⟨k, rest⟩ <;> rw [hdrop] at hm
    · have h0 : (none : Option (Nat × Nat × List Char)) = some (h, m, r) := hm
      cases h0
    rcases rest with _ | ⟨d1, rest2⟩
    · have h0 : (none : Option (Nat × Nat × List Char)) = some (h, m, r) := hm
      cases h0
    rcases rest2 with _ | ⟨d2, rr⟩
    · have h0 : (none : Option (Nat × Nat × List Char)) = some (h, m, r) := hm
      cases h0
    have hm' : (if ((k = ':' : Bool) && isDigitChar d1 && isDigitChar d2) = true
        then some (natOfDigits (l.takeWhile isDigitChar),
          digitVal d1 * 10 + digitVal d2, rr)
        else none) = some (h, m, r) := hm
    by_cases hc : ((k = ':' : Bool) && isDigitChar d1 && isDigitChar d2) = true
    case neg => rw [if_neg hc] at hm'; cases hm'
    case pos =>
      rw [if_pos hc] at hm'
      injection hm' with h1
      obtain ⟨hh, hmm, hrr⟩ : natOfDigits (l.takeWhile isDigitChar) = h ∧
          digitVal d1 * 10 + digitVal d2 = m ∧ rr = r := by
        simpa [Prod.ext_iff] using h1
      simp only [Bool.and_eq_true, decide_eq_true_eq] at hc
      obtain ⟨⟨hk, hq1⟩, hq2⟩ := hc
      simp only [Bool.or_eq_true, decide_eq_true_eq] at hlen
      refine ⟨l.takeWhile isDigitChar, d1, d2, ?_,
        fun x hx => List.mem_takeWhile_imp hx, ?_, by omega, hq1, hq2,
        hh.symm, hmm.symm⟩
      · have hsplit := (List.takeWhile_append_dropWhile isDigitChar l).symm
        rw [hdrop] at hsplit
        rw [hk, hrr] at hsplit
        exact hsplit
      · intro hnil
        rw [hnil] at hlen
        simp at hlen

lemma matchMeridiem_some {l : List Char} {c : Char} {r : List Char}
    (hm : matchMeridiem l = some (c, r)) :
    ∃ w, l = w ++ (c :: r) ∧ SpaceRun w ∧ (lowerChar c = 'a' ∨ lowerChar c = 'p') := by
  unfold matchMeridiem at hm
  rcases hdrop : skipWs l with _ | ⟨k, rest⟩ <;> rw [hdrop] at hm
  · have h0 : (none : Option (Char × List Char)) = some (c, r) := hm
    cases h0
  · have hm' : (if (lowerChar k = 'a' || lowerChar k = 'p') = true
        then some (k, rest) else none) = some (c, r) := hm
    by_cases hc : (lowerChar k = 'a' || lowerChar k = 'p') = true
    case neg => rw [if_neg hc] at hm'; cases hm'
    case pos =>
      rw [if_pos hc] at hm'
      injection hm' with h1
      obtain ⟨hk, hr⟩ : k = c ∧ rest = r := by simpa [Prod.ext_iff] using h1
      refine ⟨l.takeWhile isPySpace, ?_, fun x hx => List.mem_takeWhile_imp hx, ?_⟩
      · have hsplit := (List.takeWhile_append_dropWhile isPySpace l).symm
        have hdrop' : l.dropWhile isPySpace = k :: rest := hdrop
        rw [hdrop'] at hsplit
        rw [hk, hr] at hsplit
        exact hsplit
      · subst hk
        simpa [Bool.or_eq_true, decide_eq_true_eq] using hc

lemma to_minutes_some {h m : Nat} {c : Char} {v : Nat}
    (hv : _to_minutes h m c = some v) :
    1 ≤ h ∧ h ≤ 12 ∧ m ≤ 59 ∧ v = spec_hour24 h c * 60 + m := by
  unfold _to_minutes at hv
  by_cases hr : (decide (h < 1) || decide (h > 12) || decide (m > 59)) = true
  · rw [if_pos hr] at hv; cases hv
  · rw [if_neg hr] at hv
    simp only [Bool.or_eq_true, decide_eq_true_eq, not_or] at hr
    have hv' : (if lowerChar c = 'a' then (if h = 12 then 0 else h)
        else (if h = 12 then 12 else h + 12)) * 60 + m = v := by injection hv
    refine ⟨by omega, by omega, by omega, ?_⟩
    rw [← hv']
    unfold spec_hour24
    rfl

lemma lpuMatch_some {l : List Char} {h1 m1 : Nat} {c1 : Char} {h2 m2 : Nat} {c2 : Char}
    (hm : lpuMatch l = some (h1, m1, c1, h2, m2, c2)) :
    ∃ w0 hd1 d1 d2 w1 w2 w3 hd2 d3 d4 w4 w5,
      l = w0 ++ (hd1 ++ (':' :: ([d1, d2] ++ (w1 ++ (c1 :: (w2 ++ ('-' ::
        (w3 ++ (hd2 ++ (':' :: ([d3, d4] ++ (w4 ++ (c2 :: w5))))))))))))) ∧
      SpaceRun w0 ∧ SpaceRun w1 ∧ SpaceRun w2 ∧ SpaceRun w3 ∧ SpaceRun w4 ∧ SpaceRun w5 ∧
      DigitRun hd1 ∧ hd1 ≠ [] ∧ hd1.length ≤ 2 ∧
      isDigitChar d1 = true ∧ isDigitChar d2 = true ∧
      DigitRun hd2 ∧ hd2 ≠ [] ∧ hd2.length ≤ 2 ∧
      isDigitChar d3 = true ∧ isDigitChar d4 = true ∧
      (lowerChar c1 = 'a' ∨ lowerChar c1 = 'p') ∧
      (lowerChar c2 = 'a' ∨ lowerChar c2 = 'p') ∧
      h1 = natOfDigits hd1 ∧ m1 = digitVal d1 * 10 + digitVal d2 ∧
      h2 = natOfDigits hd2 ∧ m2 = digitVal d3 * 10 + digitVal d4 := by
  unfold lpuMatch at hm
  rcases hc1 : matchClock (skipWs l) with _ | ⟨hh1, mm1, r1⟩
  · rw [hc1] at hm
    exact Option.noConfusion hm
  simp only [hc1] at hm
  rcases hme1 : matchMeridiem r1 with _ | ⟨cc1, r2⟩
  · rw [hme1] at hm
    exact Option.noConfusion hm
  simp only [hme1] at hm
  rcases hsk2 : skipWs r2 with _ | ⟨k, r3⟩
  · rw [hsk2] at hm
    exact Option.noConfusion hm
  simp only [hsk2] at hm
  by_cases hk : k = '-'
  case neg =>
    rw [if_neg hk] at hm
    exact Option.noConfusion hm
  rw [if_pos hk] at hm
  subst hk
  rcases hc2 : matchClock (skipWs r3) with _ | ⟨hh2, mm2, r4⟩
  · rw [hc2] at hm
    exact Option.noConfusion hm
  simp only [hc2] at hm
  rcases hme2 : matchMeridiem r4 with _ | ⟨cc2, r5⟩
  · rw [hme2] at hm
    exact Option.noConfusion hm
  simp only [hme2] at hm
  by_cases hend : (skipWs r5).isEmpty = true
  case neg =>
    rw [if_neg hend] at hm
    exact Option.noConfusion hm
  rw [if_pos hend] at hm
  injection hm with hm'
  obtain ⟨e1, e2, e3, e4, e5, e6⟩ : hh1 = h1 ∧ mm1 = m1 ∧ cc1 = c1 ∧
      hh2 = h2 ∧ mm2 = m2 ∧ cc2 = c2 := by
    simpa [Prod.ext_iff] using hm'
  subst e1; subst e2; subst e3; subst e4; subst e5; subst e6
  obtain ⟨hd1, d1, d2, heq1, hdig1, hne1, hlen1, hq1, hq2, hv1, hv2⟩ := matchClock_some hc1
  obtain ⟨w1, heqr1, hsw1, hap1⟩ := matchMeridiem_some hme1
  obtain ⟨hd2, d3, d4, heq2, hdig2, hne2, hlen2, hq3, hq4, hv3, hv4⟩ := matchClock_some hc2
  obtain ⟨w4, heqr4, hsw4, hap2⟩ := matchMeridiem_some hme2
  have hr5 : SpaceRun r5 := by
    have : skipWs r5 = [] := by
      cases hsk : skipWs r5
      · rfl
      · rw [hsk] at hend; cases hend
    exact List.dropWhile_eq_nil_iff.1 this
  have hl0 : l = l.takeWhile isPySpace ++ skipWs l :=
    (List.takeWhile_append_dropWhile isPySpace l).symm
  have hr2 : r2 = r2.takeWhile isPySpace ++ ('-' :: r3) := by
    have := (List.takeWhile_append_dropWhile isPySpace r2).symm
    rw [show r2.dropWhile isPySpace = '-' :: r3 from hsk2] at this
    exact this
  have hr3 : r3 = r3.takeWhile isPySpace ++ skipWs r3 :=
    (List.takeWhile_append_dropWhile isPySpace r3).symm
  set w0 := l.takeWhile isPySpace with hw0def
  set w2 := r2.takeWhile isPySpace with hw2def
  set w3 := r3.takeWhile isPySpace with hw3def
  refine ⟨w0, hd1, d1, d2, w1, w2, w3, hd2, d3, d4, w4, r5, ?_,
    fun x hx => List.mem_takeWhile_imp hx, hsw1,
    fun x hx => List.mem_takeWhile_imp hx,
    fun x hx => List.mem_takeWhile_imp hx, hsw4, hr5,
    hdig1, hne1, hlen1, hq1, hq2, hdig2, hne2, hlen2, hq3, hq4,
    hap1, hap2, hv1, hv2, hv3, hv4⟩
  rw [hl0, heq1, heqr1, hr2, hr3, heq2, heqr4]
  simp only [List.cons_append, List.nil_append, List.append_assoc]

lemma lpu_accepts_complete {s : String} {r : String × Nat × Nat}
    (h : parse_time_lpu s = some r) : SpecLpuAccepts s := by
  unfold parse_time_lpu at h
  rcases hm : lpuMatch s.data with _ | ⟨hh1, mm1, cc1, hh2, mm2, cc2⟩
  · rw [hm] at h
    exact Option.noConfusion h
  simp only [hm] at h
  rcases ht1 : _to_minutes hh1 mm1 cc1 with _ | v1
  · rw [ht1] at h
    exact Option.noConfusion h
  simp only [ht1] at h
  rcases ht2 : _to_minutes hh2 mm2 cc2 with _ | v2
  · rw [ht2] at h
    exact Option.noConfusion h
  simp only [ht2] at h
  by_cases hge : v1 ≥ v2
  · rw [if_pos hge] at h
    exact Option.noConfusion h
  obtain ⟨w0, hd1, d1, d2, w1, w2, w3, hd2, d3, d4, w4, w5, heq, hsw0, hsw1, hsw2,
    hsw3, hsw4, hsw5, hdig1, hne1, hlen1, hq1, hq2, hdig2, hne2, hlen2, hq3, hq4,
    hap1, hap2, hv1, hv2, hv3, hv4⟩ := lpuMatch_some hm
  obtain ⟨ha1, ha2, ha3, ha4⟩ := to_minutes_some ht1
  obtain ⟨hb1, hb2, hb3, hb4⟩ := to_minutes_some ht2
  refine ⟨w0, hd1, [d1, d2], w1, w2, w3, hd2, [d3, d4], w4, w5, cc1, cc2, heq,
    hsw0, hsw1, hsw2, hsw3, hsw4, hsw5, ?_, ?_, ?_⟩
  · refine ⟨hne1, hlen1, hdig1, rfl, ?_, hap1, hv1 ▸ ha1, hv1 ▸ ha2, ?_⟩
    · intro c hc
      simp at hc
      rcases hc with hc | hc
      · rw [hc]; exact hq1
      · rw [hc]; exact hq2
    · rw [natOfDigits_pair, ← hv2]
      exact ha3
  · refine ⟨hne2, hlen2, hdig2, rfl, ?_, hap2, hv3 ▸ hb1, hv3 ▸ hb2, ?_⟩
    · intro c hc
      simp at hc
      rcases hc with hc | hc
      · rw [hc]; exact hq3
      · rw [hc]; exact hq4
    · rw [natOfDigits_pair, ← hv4]
      exact hb3
  · have hx1 : spec_side_minutes hd1 [d1, d2] cc1 = v1 := by
      unfold spec_side_minutes
      rw [natOfDigits_pair, ← hv1, ← hv2, ← ha4]
    have hx2 : spec_side_minutes hd2 [d3, d4] cc2 = v2 := by
      unfold spec_side_minutes
      rw [natOfDigits_pair, ← hv3, ← hv4, ← hb4]
    rw [hx1, hx2]
    omega

/-- C4 counterexample: the minute component is mandatory in
`LPU_TIME_RE` (`(\d{1,2}):(\d{2})`), so the claimed grammar with an optional
`:MM` is wrong: `"10a-12p"` — in the claimed grammar with hours 10 and 12 in
range and start 600 before end 720 — is rejected by `parse_time_lpu`, while
the same time written with minutes is accepted. -/
theorem c4_counterexample :
    parse_time_lpu "10a-12p" = none ∧
    parse_time_lpu "10:00a-12:00p" = some ("10:00-12:00", 600, 720) :=
  ⟨by decide, by decide⟩

/-- C4 (amended): `parse_time_lpu` succeeds exactly on the strings matching
the whitespace-tolerant, case-insensitive grammar `H:MM [ap] - H:MM [ap]`
(minutes required) whose hour components are in 1..12, whose minute
components are in 0..59, and whose resolved start minutes are strictly
before the end minutes; on every other string it raises (returns none). -/
theorem c4_success_domain :
    ∀ s : String, (∃ r, parse_time_lpu s = some r) ↔ SpecLpuAccepts s :=
  fun _ => ⟨fun ⟨_, hr⟩ => lpu_accepts_complete hr, lpu_accepts_sound⟩

/-- C4 witness: the characterization applied at a concrete accepted string,
producing its grammar decomposition. -/
theorem c4_witness : SpecLpuAccepts "10:00a-12:00p" :=
  (c4_success_domain "10:00a-12:00p").1 ⟨("10:00-12:00", 600, 720), by decide⟩

end Scheduler
